import Mathlib

set_option maxRecDepth 100000

/-!
# Verification of the GROMACS GRO coordinate-file codec

Shallow embedding of `src/parmed/gromacs/gromacsgro.py` (class
`GromacsGroFile`: `id_format`, `parse`, `write`) over `List Char` lines and
rational-number coordinates, together with theorems settling the frozen
claims about it.

Modelling conventions:
* A text file is a `List (List Char)`: the lines, without their trailing
  newline characters.  Every check the Python code performs on a slice that
  could include the newline goes through a whitespace-trimming parser, so
  dropping the newline is faithful.
* Python floats are modelled by `ℚ`.  `float(s)` / `int(s)` are modelled by
  `parseFloat` / `parseInt`, which accept the decimal forms these files
  contain (optional sign, digits, optional decimal point, surrounding
  whitespace); exponent/underscore/inf forms never arise here.
* `'%w.pf' % v` is modelled by `fmtFixed`, which rounds `v` to `p` decimals
  (ties up; the binary-float tie behaviour is unobservable at the claims'
  tolerances) and right-justifies in width `w`.
* External collaborators (`parmed.geometry` conversions, file opening, the
  `Structure` container) are not under `src/`; they are taken as function
  parameters or modelled from the spec where noted.
-/

deriving instance DecidableEq for Except

/-! ## Characters, slices, whitespace -/

/-- Decimal digit characters, as written by `'%d'` formatting. -/
def dChar (d : ℕ) : Char :=
  match d with
  | 0 => '0' | 1 => '1' | 2 => '2' | 3 => '3' | 4 => '4'
  | 5 => '5' | 6 => '6' | 7 => '7' | 8 => '8' | _ => '9'

/-- Is this one of the ten decimal digit characters? -/
def isDig (c : Char) : Bool := '0' ≤ c && c ≤ '9'

/-- Numeric value of a digit character (Python's `int` on one digit). -/
def digVal (c : Char) : ℕ := c.toNat - 48

/-- Whitespace for Python `str.strip` / `str.split` on these files. -/
def isWs (c : Char) : Bool := c = ' ' || c = '\t' || c = '\n' || c = '\r'

/-- Python slicing `line[a:b]` (for `0 ≤ a ≤ b`). -/
def pySlice (l : List Char) (a b : ℕ) : List Char := (l.drop a).take (b - a)

/-- Python `str.lstrip`. -/
def trimL (l : List Char) : List Char := l.dropWhile isWs

/-- Python `str.strip`. -/
def trim (l : List Char) : List Char := (trimL (trimL l).reverse).reverse

/-- Python `str.split()` helper: accumulates the current word (reversed). -/
def splitWsAux : List Char → List Char → List (List Char)
  | [], acc => if acc.isEmpty then [] else [acc.reverse]
  | c :: cs, acc =>
    if isWs c then
      if acc.isEmpty then splitWsAux cs [] else acc.reverse :: splitWsAux cs []
    else splitWsAux cs (c :: acc)

/-- Python `str.split()` (split on runs of whitespace, no empty fields). -/
def splitWs (l : List Char) : List (List Char) := splitWsAux l []

/-- Indices of all `'.'` characters, in increasing order
(`[i for i, x in enumerate(line) if x == '.']`). -/
def dotIdxsFrom (k : ℕ) : List Char → List ℕ
  | [] => []
  | c :: cs => if c = '.' then k :: dotIdxsFrom (k + 1) cs else dotIdxsFrom (k + 1) cs

/-- Indices of all `'.'` characters of the line. -/
def dotIdxs (l : List Char) : List ℕ := dotIdxsFrom 0 l

/-- Python `line.index('.', k)`: smallest index `≥ k` holding a dot,
`none` when absent (`ValueError`). -/
def dotIdxFrom (l : List Char) (k : ℕ) : Option ℕ := (dotIdxs l).find? (fun i => k ≤ i)

/-! ## Decimal rendering (`'%d'`, `'%w.pf'`) -/

/-- Base-10 digits, least significant first, with explicit fuel so that the
kernel can evaluate it (`digsAux fuel n` is correct whenever `n ≤ fuel`). -/
def digsAux : ℕ → ℕ → List ℕ
  | _, 0 => []
  | 0, _ + 1 => []
  | f + 1, n + 1 => (n + 1) % 10 :: digsAux f ((n + 1) / 10)

/-- Base-10 digits of `n`, least significant first (`[]` for `0`). -/
def digsLSB (n : ℕ) : List ℕ := digsAux n n

/-- `'%d' % n` for a natural number. -/
def renderNat (n : ℕ) : List Char :=
  if n = 0 then ['0'] else ((digsLSB n).map dChar).reverse

/-- `'%d' % i` for an integer. -/
def renderInt (i : ℤ) : List Char :=
  if i < 0 then '-' :: renderNat i.natAbs else renderNat i.natAbs

/-- Left-pad with copies of `c` to width `w` (shorter content only). -/
def padLeft (c : Char) (w : ℕ) (s : List Char) : List Char :=
  List.replicate (w - s.length) c ++ s

/-- Right-pad with spaces to width `w` (`'%-ws'`); longer strings are kept. -/
def fmtStrL (w : ℕ) (s : List Char) : List Char :=
  s ++ List.replicate (w - s.length) ' '

/-- Left-pad with spaces to width `w` (`'%ws'`); longer strings are kept. -/
def fmtStrR (w : ℕ) (s : List Char) : List Char := padLeft ' ' w s

/-- `'%wd' % i`: decimal integer right-justified in width `w`. -/
def fmtInt (w : ℕ) (i : ℤ) : List Char := padLeft ' ' w (renderInt i)

/-- The digit part of `'%w.pf'`: the rounded value scaled to an integer. -/
def fmtScaled (p : ℕ) (q : ℚ) : ℤ := round (q * (10 : ℚ) ^ p)

/-- Unpadded content of `'%w.pf' % q`: sign, integer digits, dot, exactly
`p` fraction digits. -/
def fmtContent (p : ℕ) (q : ℚ) : List Char :=
  let n := fmtScaled p q
  let sign : List Char := if n < 0 then ['-'] else []
  let ip := n.natAbs / 10 ^ p
  let fp := n.natAbs % 10 ^ p
  if p = 0 then sign ++ renderNat ip
  else sign ++ renderNat ip ++ '.' :: padLeft '0' p (renderNat fp)

/-- `'%w.pf' % q`: fixed-point decimal, right-justified in width `w`. -/
def fmtFixed (w p : ℕ) (q : ℚ) : List Char := padLeft ' ' w (fmtContent p q)

/-! ## Decimal parsing (`int(s)`, `float(s)`) -/

/-- Value of a digit string (most significant first). -/
def charsVal (l : List Char) : ℕ := l.foldl (fun a c => 10 * a + digVal c) 0

/-- `parseInt` after stripping: empty fails, else sign dispatch and
digit check. -/
def parseIntT : List Char → Option ℤ
  | [] => none
  | c :: cs =>
    if c = '-' then
      if cs ≠ [] ∧ cs.all isDig then some (-(charsVal cs : ℤ)) else none
    else if c = '+' then
      if cs ≠ [] ∧ cs.all isDig then some (charsVal cs : ℤ) else none
    else if (c :: cs).all isDig then some (charsVal (c :: cs) : ℤ) else none

/-- Python `int(s)` on the strings these files contain: optional
surrounding whitespace, optional sign, one or more digits. -/
def parseInt (s : List Char) : Option ℤ := parseIntT (trim s)

/-- The part of a float literal after the leading digit run `ip`:
either nothing, or a dot and a digit run. -/
def parseFloatRest (ip : List Char) : List Char → Option ℚ
  | [] => if ip.isEmpty then none else some (charsVal ip : ℚ)
  | r :: fr =>
    if r = '.' ∧ fr.all isDig ∧ (ip ≠ [] ∨ fr ≠ []) then
      some ((charsVal ip : ℚ) + (charsVal fr : ℚ) / 10 ^ fr.length)
    else none

/-- Unsigned part of a float literal: `digits`, `digits.digits`,
`digits.` or `.digits`. -/
def parseFloatBody (body : List Char) : Option ℚ :=
  parseFloatRest (body.takeWhile isDig) (body.drop (body.takeWhile isDig).length)

/-- `parseFloat` after stripping: empty fails, else sign dispatch. -/
def parseFloatT : List Char → Option ℚ
  | [] => none
  | c :: cs =>
    if c = '-' then (parseFloatBody cs).map (fun q => -q)
    else if c = '+' then parseFloatBody cs
    else parseFloatBody (c :: cs)

/-- Python `float(s)` on the decimal strings these files contain. -/
def parseFloat (s : List Char) : Option ℚ := parseFloatT (trim s)


/-! ## Data model -/

/-- A 3-vector of rationals (one box lattice vector, in the unit the
context dictates). -/
structure V3 where
  x : ℚ
  y : ℚ
  z : ℚ
  deriving DecidableEq

/-- One atom as stored in the structure container: identity fields from the
record line, coordinates in angstroms, optional velocity. -/
structure SAtom where
  name : List Char
  number : ℤ
  resName : List Char
  resNum : ℤ
  residueIdx : ℕ
  xx : ℚ
  xy : ℚ
  xz : ℚ
  vel : Option (ℚ × ℚ × ℚ)
  deriving DecidableEq

/-- The structure container, reduced to what the codec reads and writes:
atoms in insertion order and the optional box attribute
`[a, b, c, alpha, beta, gamma]`. -/
structure GroStructure where
  atoms : List SAtom
  box : Option (List ℚ)
  deriving DecidableEq

/-- Modelled from the spec: `Structure.add_atom` of the external container
(`parmed.structure`, not under `src/`) appends the atom in insertion order
and associates it with a residue; consecutive atoms whose residue name and
number both match join the previous residue, otherwise a new residue is
started (spec section 6: "append atom with associated residue name/number;
enumerate atoms in insertion order with residue and serial index
attributes"). -/
def addAtom (atoms : List SAtom) (a : SAtom) : List SAtom :=
  match atoms.getLast? with
  | none => atoms ++ [{ a with residueIdx := 0 }]
  | some last =>
    if last.resName = a.resName ∧ last.resNum = a.resNum then
      atoms ++ [{ a with residueIdx := last.residueIdx }]
    else
      atoms ++ [{ a with residueIdx := last.residueIdx + 1 }]

/-- Errors raised by `GromacsGroFile.parse`: `GromacsError`, and the
`NameError` Python raises when `line` is read before any line was bound
(atom count `0` and nothing after the header). -/
inductive GroErr where
  | gromacs
  | nameError
  deriving DecidableEq

/-- The external converter `box_vectors_to_lengths_and_angles` composed
with the unit extraction (`parmed.geometry`, not under `src/`): from three
box vectors in nanometers to `(a, b, c)` in angstroms and
`(alpha, beta, gamma)` in degrees.  `parse` is parameterized over it. -/
abbrev VecsToLA := V3 → V3 → V3 → (ℚ × ℚ × ℚ) × (ℚ × ℚ × ℚ)

/-- The vector interpretation `parse` gives a 9-value box line
(`gromacsgro.py` lines 148-150): vectors `(box[0], box[3], box[4])`,
`(box[5], box[1], box[6])`, `(box[7], box[8], box[2])`. -/
def groBoxVectors (box : List ℚ) : V3 × V3 × V3 :=
  (⟨box.getD 0 0, box.getD 3 0, box.getD 4 0⟩,
   ⟨box.getD 5 0, box.getD 1 0, box.getD 6 0⟩,
   ⟨box.getD 7 0, box.getD 8 0, box.getD 2 0⟩)

/-! ## `GromacsGroFile.id_format` (lines 29-72) -/

/-- The dot-position part of the third-line check (lines 56-69), taking
the list of dot indices: two decimal points are required (`pdeci[1]` —
else the uncaught `IndexError`), then the three coordinate groups must
float-parse, and when the 4th group is non-blank, the three velocity
groups as well. -/
def idDotsCheck (line : List Char) : List ℕ → Except Unit Bool
  | p0 :: p1 :: _ =>
    let ndeci : ℤ := (p1 : ℤ) - p0 - 5
    let wpos (i : ℤ) : ℕ := ((p0 : ℤ) - 4 + (5 + ndeci) * i).toNat
    let grp (i : ℤ) : List Char := pySlice line (wpos (i - 1)) (wpos i)
    if (parseFloat (grp 1)).isSome ∧ (parseFloat (grp 2)).isSome ∧
        (parseFloat (grp 3)).isSome then
      if trim (grp 4) ≠ [] then
        if (parseFloat (grp 4)).isSome ∧ (parseFloat (grp 5)).isSome ∧
            (parseFloat (grp 6)).isSome then .ok true
        else .ok false
      else .ok true
    else .ok false
  | _ => .error ()

/-- The fixed-column checks `id_format` runs on the third line
(lines 51-71): every `ValueError` is caught and becomes
`Except.ok false`; the `IndexError` of `pdeci[1]` is not. -/
def idCheckLine (line : List Char) : Except Unit Bool :=
  if (parseInt (pySlice line 0 5)).isNone then .ok false
  else if trim (pySlice line 5 10) = [] then .ok false
  else if trim (pySlice line 10 15) = [] then .ok false
  else if (parseInt (pySlice line 15 20)).isNone then .ok false
  else idDotsCheck line (dotIdxs line)

/-- `GromacsGroFile.id_format` (lines 29-72): skip the title line, parse
the atom-count line as an integer, then run the fixed-column checks on the
third line.  A missing line reads as the empty string, as `readline`
returns at end of file. -/
def idFormat (file : List (List Char)) : Except Unit Bool :=
  if (parseInt (trim (file.getD 1 []))).isNone then .ok false
  else idCheckLine (file.getD 2 [])

/-! ## `GromacsGroFile.parse` (lines 76-160) -/

/-- Column layout inferred from the first atom line and reused for the
whole file: `digits = ndeci - pdeci` (the coordinate field stride),
`pdeci` the index of the first `'.'` at or after column 20, `ndeci` the
index of the next `'.'` after it (lines 114-117; note `ndeci` here is an
absolute position, unlike `id_format`). -/
structure Layout where
  digits : ℕ
  pdeci : ℕ
  ndeci : ℕ
  deriving DecidableEq

/-- Everything `parse` extracts from one atom record line
(lines 108-133). -/
structure ParsedAtom where
  resNum : ℤ
  resName : List Char
  atomName : List Char
  atNum : ℤ
  xx : ℚ
  xy : ℚ
  xz : ℚ
  vel : Option (ℚ × ℚ × ℚ)
  deriving DecidableEq

/-- A parse step: a failed `int`/`float`/`index` call aborts with the
given error (the caught `ValueError` re-raised as `GromacsError`),
otherwise the computation continues with the value. -/
def optStep {α β : Type} (o : Option α) (e : GroErr) (k : α → Except GroErr β) :
    Except GroErr β :=
  match o with
  | none => .error e
  | some a => k a

theorem optStep_some {α β : Type} (a : α) (e : GroErr) (k : α → Except GroErr β) :
    optStep (some a) e k = k a := rfl

theorem optStep_none {α β : Type} (e : GroErr) (k : α → Except GroErr β) :
    optStep (none : Option α) e k = .error e := rfl

/-- Layout inference for the first atom line (lines 114-117): position of
the first dot at or after column 20, position of the next dot, and their
difference as the field stride. -/
def inferLayout (line : List Char) : Except GroErr Layout :=
  optStep (dotIdxFrom line 20) .gromacs (fun pdeci =>
    optStep (dotIdxFrom line (pdeci + 1)) .gromacs (fun ndeci =>
      .ok ⟨ndeci - pdeci, pdeci, ndeci⟩))

/-- The cached layout if one is established, else the inference from this
line (the `if digits is None` branch of lines 114-117). -/
def layoutOf (layout? : Option Layout) (line : List Char) : Except GroErr Layout :=
  match layout? with
  | some l => .ok l
  | none => inferLayout line

/-- Sequencing on the `Except` produced by the layout step. -/
def exceptStep {α β : Type} (r : Except GroErr α) (k : α → Except GroErr β) :
    Except GroErr β :=
  match r with
  | .error e => .error e
  | .ok x => k x

theorem exceptStep_ok {α β : Type} (x : α) (k : α → Except GroErr β) :
    exceptStep (.ok x) k = k x := rfl

/-- Decode one atom record line (lines 108-133): fixed slices for the
integer and name fields; on the first line, infer the layout from the
positions of the first two decimal points at or after column 20; three
coordinate fields of width `digits` from column 20, scaled by 10; then the
velocity-presence test and the velocity fields, both computed from `pdeci`
and the absolute position `ndeci` exactly as the source does. -/
def parseAtomLine (layout? : Option Layout) (line : List Char) :
    Except GroErr (ParsedAtom × Layout) :=
  optStep (parseInt (pySlice line 0 5)) .gromacs (fun resnum =>
  let resname := trim (pySlice line 5 10)
  let atomname := trim (pySlice line 10 15)
  optStep (parseInt (pySlice line 15 20)) .gromacs (fun atnum =>
  exceptStep (layoutOf layout? line) (fun layout =>
  let d := layout.digits
  optStep (parseFloat (pySlice line 20 (20 + d))) .gromacs (fun x =>
  optStep (parseFloat (pySlice line (20 + d) (20 + 2 * d))) .gromacs (fun y =>
  optStep (parseFloat (pySlice line (20 + 2 * d) (20 + 3 * d))) .gromacs (fun z =>
  let wbeg := layout.pdeci - 4 + (5 + layout.ndeci) * 3
  let wend := layout.pdeci - 4 + (5 + layout.ndeci) * 4
  if trim (pySlice line wbeg wend) ≠ [] then
    let vslice (i : ℕ) : List Char :=
      pySlice line (layout.pdeci - 3 + (6 + layout.ndeci) * i)
        (layout.pdeci - 3 + (6 + layout.ndeci) * (i + 1))
    optStep (parseFloat (vslice 3)) .gromacs (fun vx =>
    optStep (parseFloat (vslice 4)) .gromacs (fun vy =>
    optStep (parseFloat (vslice 5)) .gromacs (fun vz =>
    .ok (⟨resnum, resname, atomname, atnum, x * 10, y * 10, z * 10,
      some (vx * 10, vy * 10, vz * 10)⟩, layout))))
  else
    .ok (⟨resnum, resname, atomname, atnum, x * 10, y * 10, z * 10, none⟩,
      layout)))))))

/-- End-of-loop box handling (lines 135-155): `line` still holds the last
line the loop read; when it is bound and non-blank, every whitespace token
must float-parse, and a token count of exactly 3 or exactly 9 records a
box (3 values: lengths scaled by 10, right angles; 9 values: through the
external vectors-to-lengths-and-angles conversion `g`); any other count
records nothing. -/
def finishBox (g : VecsToLA) (atoms : List SAtom) :
    Option (List Char) → Except GroErr GroStructure
  | none => .error .nameError
  | some line =>
    if trim line = [] then .ok ⟨atoms, none⟩
    else
      optStep ((splitWs line).mapM parseFloat) .gromacs (fun box =>
        if box.length = 3 then
          .ok ⟨atoms, some [box.getD 0 0 * 10, box.getD 1 0 * 10, box.getD 2 0 * 10,
            90, 90, 90]⟩
        else if box.length = 9 then
          let (v1, v2, v3) := groBoxVectors box
          let (leng, ang) := g v1 v2 v3
          .ok ⟨atoms, some [leng.1, leng.2.1, leng.2.2, ang.1, ang.2.1, ang.2.2]⟩
        else .ok ⟨atoms, none⟩)

/-- The atom loop of `parse` (lines 106-134): stop before decoding when
the enumeration index reaches `natom` (the stopping line is then the box
candidate), otherwise decode the line, append the atom through the
container, and continue; at end of input fall through to the box handling
with the last line read, if any. -/
def parseLoop (g : VecsToLA) (natom : ℤ) (i : ℕ) (layout? : Option Layout)
    (atoms : List SAtom) (lastLine : Option (List Char)) :
    List (List Char) → Except GroErr GroStructure
  | [] => finishBox g atoms lastLine
  | line :: rest =>
    if (i : ℤ) = natom then finishBox g atoms (some line)
    else
      exceptStep (parseAtomLine layout? line) (fun pl =>
        parseLoop g natom (i + 1) (some pl.2)
          (addAtom atoms ⟨pl.1.atomName, pl.1.atNum, pl.1.resName, pl.1.resNum, 0,
            pl.1.xx, pl.1.xy, pl.1.xz, pl.1.vel⟩) (some line) rest)

/-- `GromacsGroFile.parse` (lines 76-160): ignore the title line, parse
the atom-count line as an integer (else `GromacsError`), then run the atom
loop over the remaining lines. -/
def parseGro (g : VecsToLA) (file : List (List Char)) : Except GroErr GroStructure :=
  optStep (parseInt (trim (file.getD 1 []))) .gromacs (fun natom =>
    parseLoop g natom 0 none [] none (file.drop 2))

/-! ## `GromacsGroFile.write` (lines 164-232) -/

/-- Modelled from the spec: `TINY` is imported from `parmed.constants`
(not under `src/`); the spec calls it "a small numerical tolerance" for
the 90-degree test.  ParmEd uses `1e-8`. -/
def TINY : ℚ := 1 / 100000000

/-- The external composite `reduce_box_vectors(box_lengths_and_angles_to_
vectors(*box))` (`parmed.geometry`, not under `src/`): from
`[a, b, c, alpha, beta, gamma]` to the three reduced lattice vectors in
angstroms.  `write` is parameterized over it. -/
abbrev LAToVecs := List ℚ → V3 × V3 × V3

/-- One coordinate field of `write` (line 192 and 197-199):
`(crdfmt % (v/10))[:varwidth]` with `crdfmt = '%(5+p).pf'`. -/
def crdFmtField (p : ℕ) (v : ℚ) : List Char :=
  (fmtFixed (5 + p) p (v / 10)).take (5 + p)

/-- One velocity field of `write` (line 193 and 201-203):
`(velfmt % (v/10))[:varwidth]` with `velfmt = '%(5+p).(p+1)f'` — the same
total width `varwidth = 5 + p` as a coordinate field, one more decimal. -/
def velFmtField (p : ℕ) (v : ℚ) : List Char :=
  (fmtFixed (5 + p) (p + 1) (v / 10)).take (5 + p)

/-- One atom record line of `write` (lines 195-204):
`'%5d%-5s%5s%5d' % (residue.idx+1, residue.name, atom.name, atom.idx+1)`
followed by three coordinate fields and, when every atom of the structure
has velocities, three velocity fields. -/
def encodeAtomLine (p : ℕ) (hasVels : Bool) (idx : ℕ) (a : SAtom) : List Char :=
  fmtInt 5 ((a.residueIdx : ℤ) + 1) ++ fmtStrL 5 a.resName ++ fmtStrR 5 a.name ++
    fmtInt 5 ((idx : ℤ) + 1) ++
    crdFmtField p a.xx ++ crdFmtField p a.xy ++ crdFmtField p a.xz ++
    (if hasVels then
      match a.vel with
      | some (vx, vy, vz) => velFmtField p vx ++ velFmtField p vy ++ velFmtField p vz
      | none => []
    else [])

/-- The nine components `write` emits for a non-orthorhombic box
(lines 212-213), already divided by 10:
`(a[0], b[1], c[2], a[1], a[2], b[0], b[2], c[0], c[1])`. -/
def writeBox9 (a b c : V3) : List ℚ :=
  [a.x / 10, b.y / 10, c.z / 10, a.y / 10, a.z / 10, b.x / 10, b.z / 10,
    c.x / 10, c.y / 10]

/-- The box line `write` emits when `struct.box` is set (lines 206-214):
reduced vectors from the external geometry `g`; three `'%10.5f'` diagonal
components when all three angles are within `TINY` of 90 degrees, else all
nine components in the format's ordering. -/
def boxLineOf (g : LAToVecs) (box : List ℚ) : List Char :=
  let (a, b, c) := g box
  if (box.drop 3).all (fun x => |x - 90| < TINY) then
    fmtFixed 10 5 (a.x / 10) ++ fmtFixed 10 5 (b.y / 10) ++ fmtFixed 10 5 (c.z / 10)
  else
    (writeBox9 a b c).foldr (fun q acc => fmtFixed 10 5 q ++ acc) []

/-- The min/max extent fold of the no-box path (lines 217-226), seeded
from atoms 0 and 1 and folded over the whole atom list. -/
def extentFold (f : SAtom → ℚ) (a0 a1 : SAtom) (atoms : List SAtom) : ℚ × ℚ :=
  atoms.foldl (fun mm a => (min mm.1 (f a), max mm.2 (f a))) (f a0, f a1)

/-- The three values of the derived box line (lines 227-229):
`(dim_max - dim_min + 5) / 10` along each axis. -/
def derivedBoxTriple (a0 a1 : SAtom) (atoms : List SAtom) : ℚ × ℚ × ℚ :=
  let xd := extentFold (·.xx) a0 a1 atoms
  let yd := extentFold (·.xy) a0 a1 atoms
  let zd := extentFold (·.xz) a0 a1 atoms
  ((xd.2 - xd.1 + 5) / 10, (yd.2 - yd.1 + 5) / 10, (zd.2 - zd.1 + 5) / 10)

/-- The derived box line (`'%10.5f'*3`, lines 227-230). -/
def derivedBoxLine (a0 a1 : SAtom) (atoms : List SAtom) : List Char :=
  let t := derivedBoxTriple a0 a1 atoms
  fmtFixed 10 5 t.1 ++ fmtFixed 10 5 t.2.1 ++ fmtFixed 10 5 t.2.2

/-- Errors `write` can raise: the `TypeError` for an invalid destination
(line 186), the `IndexError` from `struct.atoms[1]` when the no-box
path runs with a single atom (line 217), and the `UnboundLocalError` from
`if own_handle:` at line 231 — `own_handle` is assigned only in the
path-string branch (line 184), so for a file-like destination the name is
unbound when line 231 runs. -/
inductive WriteErr where
  | typeErr
  | indexErr
  | unboundLocalErr
  deriving DecidableEq

/-- The lines `write` emits (lines 188-230), in order: the fixed title,
the `'%5d'` atom count, one record line per atom, and the box line — from
`struct.box` via the external geometry `g` when set, else (unless `nobox`
or the structure is empty) derived from the atom extent. -/
def writeGroLines (g : LAToVecs) (s : GroStructure) (precision : ℕ)
    (nobox : Bool) : Except WriteErr (List (List Char)) :=
  let title := "GROningen MAchine for Chemical Simulation".toList
  let count := fmtInt 5 (s.atoms.length : ℤ)
  let hasVels := s.atoms.all (fun a => a.vel.isSome)
  let atomLines := s.atoms.enum.map (fun ai => encodeAtomLine precision hasVels ai.1 ai.2)
  match s.box with
  | some box => .ok (title :: count :: atomLines ++ [boxLineOf g box])
  | none =>
    if nobox = false ∧ s.atoms ≠ [] then
      match s.atoms, s.atoms[1]? with
      | a0 :: _, some a1 => .ok (title :: count :: atomLines ++ [derivedBoxLine a0 a1 s.atoms])
      | _, _ => .error .indexErr
    else .ok (title :: count :: atomLines)

/-- The destinations `write` distinguishes (lines 182-186): a path string
(opened through the external `genopen`), an object with a `write` method,
or anything else. -/
inductive Dest where
  | pathStr
  | fileLike
  | nonWritable
  deriving DecidableEq

/-- `GromacsGroFile.write` (lines 164-232): destination dispatch, the
emission of the lines, then the close at lines 231-232.  A destination
that is neither a string nor an object with a `write` method raises
`TypeError` before anything is written.  A path string sets
`own_handle = True` (line 184) and the call returns normally.  A
file-like destination leaves `own_handle` unassigned, so after the body
completes (every line already written to the object) line 231's
`if own_handle:` raises an uncaught `UnboundLocalError`; an exception
raised earlier in the body (the single-atom `IndexError`) propagates
before line 231 is reached. -/
def writeGro (g : LAToVecs) (s : GroStructure) (dest : Dest) (precision : ℕ)
    (nobox : Bool) : Except WriteErr (List (List Char)) :=
  match dest with
  | .nonWritable => .error .typeErr
  | .pathStr => writeGroLines g s precision nobox
  | .fileLike =>
    match writeGroLines g s precision nobox with
    | .ok _ => .error .unboundLocalErr
    | .error e => .error e

/-! ## Lemmas: digits and decimal rendering -/

example : parseFloat "   1.624".toList = some (1624/1000 : ℚ) := by with_unfolding_all decide
example : parseFloat " -0.0580".toList = some (-(580/10000) : ℚ) := by with_unfolding_all decide
example : parseFloat "1SOL".toList = none := by with_unfolding_all decide
example : parseInt "    1".toList = some 1 := by with_unfolding_all decide
example : parseInt "  2 ".toList = some 2 := by with_unfolding_all decide
example : parseInt "1 1 1".toList = none := by with_unfolding_all decide
example : fmtFixed 8 3 (4/10000 : ℚ) = "   0.000".toList := by with_unfolding_all decide
example : fmtFixed 8 3 (-(1234/1000) : ℚ) = "  -1.234".toList := by with_unfolding_all decide
example : fmtInt 5 2 = "    2".toList := by with_unfolding_all decide
example : dotIdxs "   0.126   1.624".toList = [4, 12] := by with_unfolding_all decide
example : dotIdxFrom "   0.126   1.624".toList 5 = some 12 := by with_unfolding_all decide
example : splitWs "  3.0 3.0  3.0 ".toList = ["3.0".toList, "3.0".toList, "3.0".toList] := by with_unfolding_all decide

theorem digsAux_eq_of_le (f1 : ℕ) : ∀ f2 n : ℕ, n ≤ f1 → n ≤ f2 →
    digsAux f1 n = digsAux f2 n := by
  induction f1 with
  | zero =>
    intro f2 n h1 _
    interval_cases n
    cases f2 <;> rfl
  | succ f ih =>
    intro f2 n h1 h2
    match n, f2 with
    | 0, f2 => cases f2 <;> rfl
    | n + 1, f2 + 1 =>
      show (n + 1) % 10 :: digsAux f ((n + 1) / 10) =
        (n + 1) % 10 :: digsAux f2 ((n + 1) / 10)
      have hd : (n + 1) / 10 < n + 1 := Nat.div_lt_self (Nat.succ_pos n) (by norm_num)
      rw [ih f2 ((n + 1) / 10) (by omega) (by omega)]

theorem digsLSB_zero : digsLSB 0 = [] := rfl

theorem digsLSB_succ (n : ℕ) :
    digsLSB (n + 1) = (n + 1) % 10 :: digsLSB ((n + 1) / 10) := by
  show digsAux (n + 1) (n + 1) = (n + 1) % 10 :: digsLSB ((n + 1) / 10)
  have hd : (n + 1) / 10 < n + 1 := Nat.div_lt_self (Nat.succ_pos n) (by norm_num)
  show (n + 1) % 10 :: digsAux n ((n + 1) / 10) = (n + 1) % 10 :: digsLSB ((n + 1) / 10)
  rw [digsAux_eq_of_le n ((n + 1) / 10) ((n + 1) / 10) (by omega) le_rfl]
  rfl

theorem digsLSB_lt_ten (n : ℕ) : ∀ d ∈ digsLSB n, d < 10 := by
  induction n using Nat.strong_induction_on with
  | _ n ih =>
    match n with
    | 0 => intro d hd; simp [digsLSB_zero] at hd
    | n + 1 =>
      intro d hd
      rw [digsLSB_succ] at hd
      rcases List.mem_cons.mp hd with h | h
      · omega
      · exact ih ((n + 1) / 10) (Nat.div_lt_self (Nat.succ_pos n) (by norm_num)) d h

theorem digVal_dChar (d : ℕ) (h : d < 10) : digVal (dChar d) = d := by
  interval_cases d <;> rfl

theorem isDig_dChar (d : ℕ) (h : d < 10) : isDig (dChar d) = true := by
  interval_cases d <;> rfl

theorem charsVal_append_one (l : List Char) (c : Char) :
    charsVal (l ++ [c]) = 10 * charsVal l + digVal c := by
  unfold charsVal
  rw [List.foldl_append]
  rfl

theorem charsVal_digsLSB (n : ℕ) :
    charsVal ((digsLSB n).map dChar).reverse = n := by
  induction n using Nat.strong_induction_on with
  | _ n ih =>
    match n with
    | 0 => rfl
    | n + 1 =>
      rw [digsLSB_succ, List.map_cons, List.reverse_cons, charsVal_append_one,
        ih ((n + 1) / 10) (Nat.div_lt_self (Nat.succ_pos n) (by norm_num)),
        digVal_dChar _ (Nat.mod_lt _ (by norm_num))]
      omega

theorem charsVal_renderNat (n : ℕ) : charsVal (renderNat n) = n := by
  unfold renderNat
  split
  · simp only [*]; rfl
  · exact charsVal_digsLSB n

theorem renderNat_all_isDig (n : ℕ) : (renderNat n).all isDig = true := by
  unfold renderNat
  split
  · rfl
  · rw [List.all_eq_true]
    intro c hc
    rw [List.mem_reverse, List.mem_map] at hc
    obtain ⟨d, hd, rfl⟩ := hc
    exact isDig_dChar d (digsLSB_lt_ten n d hd)

theorem renderNat_ne_nil (n : ℕ) : renderNat n ≠ [] := by
  unfold renderNat
  split
  · simp
  · intro h
    rw [List.reverse_eq_nil_iff, List.map_eq_nil_iff] at h
    match hn : n, h with
    | n + 1, h => rw [digsLSB_succ] at h; cases h

theorem digsLSB_length_le (k : ℕ) : ∀ n : ℕ, n < 10 ^ k → (digsLSB n).length ≤ k := by
  induction k with
  | zero =>
    intro n hn
    interval_cases n
    simp [digsLSB_zero]
  | succ k ih =>
    intro n hn
    match n with
    | 0 => simp [digsLSB_zero]
    | n + 1 =>
      rw [digsLSB_succ, List.length_cons]
      have : (n + 1) / 10 < 10 ^ k := by
        rw [Nat.div_lt_iff_lt_mul (by norm_num)]
        calc n + 1 < 10 ^ (k + 1) := hn
        _ = 10 ^ k * 10 := by ring
      exact Nat.succ_le_succ (ih _ this)

theorem renderNat_length_le (k n : ℕ) (hk : 1 ≤ k) (hn : n < 10 ^ k) :
    (renderNat n).length ≤ k := by
  unfold renderNat
  split
  · simpa using hk
  · rw [List.length_reverse, List.length_map]
    exact digsLSB_length_le k n hn

theorem isDig_not_isWs (c : Char) (h : isDig c = true) : isWs c = false := by
  unfold isDig at h
  unfold isWs
  rw [Bool.and_eq_true, decide_eq_true_eq, decide_eq_true_eq] at h
  obtain ⟨h1, h2⟩ := h
  have e1 : c ≠ ' ' := by rintro rfl; exact absurd h1 (by decide)
  have e2 : c ≠ '\t' := by rintro rfl; exact absurd h1 (by decide)
  have e3 : c ≠ '\n' := by rintro rfl; exact absurd h1 (by decide)
  have e4 : c ≠ '\r' := by rintro rfl; exact absurd h1 (by decide)
  simp [e1, e2, e3, e4]

theorem isDig_ne_dot (c : Char) (h : isDig c = true) : c ≠ '.' := by
  rintro rfl; exact absurd h (by decide)

theorem isDig_ne_minus (c : Char) (h : isDig c = true) : c ≠ '-' := by
  rintro rfl; exact absurd h (by decide)

theorem isDig_ne_plus (c : Char) (h : isDig c = true) : c ≠ '+' := by
  rintro rfl; exact absurd h (by decide)

/-! ## Lemmas: trimming and padding -/

theorem trimL_replicate_space (m : ℕ) (t : List Char) :
    trimL (List.replicate m ' ' ++ t) = trimL t := by
  induction m with
  | zero => rfl
  | succ k ih => simpa [List.replicate_succ, trimL] using ih

theorem trimL_eq_self (s : List Char) (h : s.all (fun c => !isWs c) = true) :
    trimL s = s := by
  cases s with
  | nil => rfl
  | cons c cs =>
    rw [List.all_cons, Bool.and_eq_true, Bool.not_eq_true'] at h
    simp [trimL, List.dropWhile_cons, h.1]

theorem trim_eq_self (s : List Char) (h : s.all (fun c => !isWs c) = true) :
    trim s = s := by
  unfold trim
  rw [trimL_eq_self s h, trimL_eq_self s.reverse (by simpa using h), List.reverse_reverse]

theorem trim_pad_left (m : ℕ) (s : List Char) (h : s.all (fun c => !isWs c) = true) :
    trim (List.replicate m ' ' ++ s) = s := by
  unfold trim
  rw [trimL_replicate_space m s, trimL_eq_self s h,
    trimL_eq_self s.reverse (by simpa using h), List.reverse_reverse]

theorem all_reverse_eq (p : Char → Bool) (s : List Char) :
    s.reverse.all p = s.all p := by
  simp only [List.all_eq, List.mem_reverse]

theorem trim_pad_both (m k : ℕ) (s : List Char) (h : s.all (fun c => !isWs c) = true) :
    trim (List.replicate m ' ' ++ s ++ List.replicate k ' ') = s := by
  unfold trim
  rw [List.append_assoc, trimL_replicate_space m (s ++ List.replicate k ' ')]
  cases s with
  | nil =>
    simp only [List.nil_append]
    rw [show trimL (List.replicate k ' ') = trimL (List.replicate k ' ' ++ []) by simp,
      trimL_replicate_space k []]
    rfl
  | cons c cs =>
    have hc : isWs c = false := by
      rw [List.all_cons, Bool.and_eq_true, Bool.not_eq_true'] at h
      exact h.1
    rw [show trimL ((c :: cs) ++ List.replicate k ' ') = (c :: cs) ++ List.replicate k ' '
      from by simp [trimL, List.dropWhile_cons, hc]]
    rw [List.reverse_append, List.reverse_replicate, trimL_replicate_space k (c :: cs).reverse,
      trimL_eq_self (c :: cs).reverse (by rw [all_reverse_eq]; exact h),
      List.reverse_reverse]

theorem trim_pad_right (k : ℕ) (s : List Char) (h : s.all (fun c => !isWs c) = true) :
    trim (s ++ List.replicate k ' ') = s := by
  have := trim_pad_both 0 k s h
  simpa using this

theorem trim_nil : trim ([] : List Char) = [] := rfl

theorem all_nonWs_of_all_isDig (s : List Char) (h : s.all isDig = true) :
    s.all (fun c => !isWs c) = true := by
  rw [List.all_eq_true] at h ⊢
  intro c hc
  have := isDig_not_isWs c (h c hc)
  simp [this]

theorem padLeft_length (c : Char) (w : ℕ) (s : List Char) :
    (padLeft c w s).length = max w s.length := by
  unfold padLeft
  rw [List.length_append, List.length_replicate]
  omega

theorem padLeft_eq_self (c : Char) (w : ℕ) (s : List Char) (h : w ≤ s.length) :
    padLeft c w s = s := by
  unfold padLeft
  rw [Nat.sub_eq_zero_of_le h]
  rfl

theorem take_padLeft_length (c : Char) (w : ℕ) (s : List Char) :
    ((padLeft c w s).take w).length = w := by
  rw [List.length_take, padLeft_length]
  omega

/-! ## Lemmas: parsing rendered numbers -/

theorem renderNat_cons (n : ℕ) : ∃ c cs, renderNat n = c :: cs := by
  cases hr : renderNat n with
  | nil => exact absurd hr (renderNat_ne_nil n)
  | cons c cs => exact ⟨c, cs, rfl⟩

theorem parseInt_pad_renderNat (m n : ℕ) :
    parseInt (List.replicate m ' ' ++ renderNat n) = some (n : ℤ) := by
  have hdig := renderNat_all_isDig n
  have htrim : trim (List.replicate m ' ' ++ renderNat n) = renderNat n :=
    trim_pad_left m _ (all_nonWs_of_all_isDig _ hdig)
  obtain ⟨c, cs, e⟩ := renderNat_cons n
  have hc : isDig c = true := by
    rw [e, List.all_cons, Bool.and_eq_true] at hdig
    exact hdig.1
  unfold parseInt
  rw [htrim, e]
  simp only [parseIntT]
  rw [if_neg (isDig_ne_minus c hc), if_neg (isDig_ne_plus c hc),
    if_pos (by rw [← e]; exact renderNat_all_isDig n)]
  rw [← e, charsVal_renderNat]

theorem parseInt_fmtInt_nat (w n : ℕ) : parseInt (fmtInt w (n : ℤ)) = some (n : ℤ) := by
  unfold fmtInt renderInt padLeft
  rw [if_neg (by omega), Int.natAbs_ofNat]
  exact parseInt_pad_renderNat _ n

theorem charsVal_replicate_zero (j : ℕ) (s : List Char) :
    charsVal (List.replicate j '0' ++ s) = charsVal s := by
  unfold charsVal
  rw [List.foldl_append]
  have : List.foldl (fun a c => 10 * a + digVal c) 0 (List.replicate j '0') = 0 := by
    induction j with
    | zero => rfl
    | succ i ih => rw [List.replicate_succ]; simpa [digVal] using ih
  rw [this]

theorem takeWhile_all_append (p : Char → Bool) (A : List Char) (b : Char) (B : List Char)
    (hA : A.all p = true) (hb : p b = false) :
    (A ++ b :: B).takeWhile p = A := by
  induction A with
  | nil => simp [List.takeWhile_cons, hb]
  | cons a A ih =>
    rw [List.all_cons, Bool.and_eq_true] at hA
    simp [List.takeWhile_cons, hA.1, ih hA.2]

theorem fmtContent_eq (p : ℕ) (q : ℚ) (hp : 1 ≤ p) :
    fmtContent p q = (if fmtScaled p q < 0 then ['-'] else []) ++
      (renderNat ((fmtScaled p q).natAbs / 10 ^ p) ++
        '.' :: padLeft '0' p (renderNat ((fmtScaled p q).natAbs % 10 ^ p))) := by
  unfold fmtContent
  rw [if_neg (by omega), List.append_assoc]

theorem fracPad_length (p fp : ℕ) (hp : 1 ≤ p) (hfp : fp < 10 ^ p) :
    (padLeft '0' p (renderNat fp)).length = p := by
  rw [padLeft_length]
  have := renderNat_length_le p fp hp hfp
  omega

theorem fracPad_all_isDig (p fp : ℕ) : (padLeft '0' p (renderNat fp)).all isDig = true := by
  unfold padLeft
  rw [List.all_append, Bool.and_eq_true]
  constructor
  · rw [List.all_eq_true]
    intro c hc
    rw [List.eq_of_mem_replicate hc]
    rfl
  · exact renderNat_all_isDig fp

theorem charsVal_fracPad (p fp : ℕ) : charsVal (padLeft '0' p (renderNat fp)) = fp := by
  unfold padLeft
  rw [charsVal_replicate_zero, charsVal_renderNat]

theorem fmtContent_all_nonWs (p : ℕ) (q : ℚ) (hp : 1 ≤ p) :
    (fmtContent p q).all (fun c => !isWs c) = true := by
  rw [fmtContent_eq p q hp]
  rw [List.all_append, Bool.and_eq_true]
  constructor
  · split <;> rfl
  · rw [List.all_append, Bool.and_eq_true]
    refine ⟨all_nonWs_of_all_isDig _ (renderNat_all_isDig _), ?_⟩
    rw [List.all_cons, Bool.and_eq_true]
    exact ⟨by rfl, all_nonWs_of_all_isDig _ (fracPad_all_isDig _ _)⟩

theorem parseFloatBody_core (ip fp p : ℕ) (hp : 1 ≤ p) (hfp : fp < 10 ^ p) :
    parseFloatBody (renderNat ip ++ '.' :: padLeft '0' p (renderNat fp)) =
      some ((ip : ℚ) + (fp : ℚ) / 10 ^ p) := by
  unfold parseFloatBody
  have htw := takeWhile_all_append isDig (renderNat ip) '.'
    (padLeft '0' p (renderNat fp)) (renderNat_all_isDig ip) (by rfl)
  rw [htw, List.drop_left]
  simp only [parseFloatRest]
  rw [if_pos ⟨trivial, fracPad_all_isDig p fp, Or.inl (renderNat_ne_nil ip)⟩]
  rw [charsVal_renderNat, charsVal_fracPad, fracPad_length p fp hp hfp]

theorem parseFloat_fmtFixed (w p : ℕ) (q : ℚ) (hp : 1 ≤ p) :
    parseFloat (fmtFixed w p q) = some ((fmtScaled p q : ℚ) / 10 ^ p) := by
  have hfp : (fmtScaled p q).natAbs % 10 ^ p < 10 ^ p :=
    Nat.mod_lt _ (Nat.pos_pow_of_pos p (by norm_num))
  have hcontent := fmtContent_eq p q hp
  have hnonws := fmtContent_all_nonWs p q hp
  have htrim : trim (fmtFixed w p q) = fmtContent p q := by
    unfold fmtFixed padLeft
    exact trim_pad_left _ _ hnonws
  have hval : (((fmtScaled p q).natAbs / 10 ^ p : ℕ) : ℚ) +
      (((fmtScaled p q).natAbs % 10 ^ p : ℕ) : ℚ) / 10 ^ p =
      ((fmtScaled p q).natAbs : ℚ) / 10 ^ p := by
    have hm : ((fmtScaled p q).natAbs : ℚ) =
        10 ^ p * (((fmtScaled p q).natAbs / 10 ^ p : ℕ) : ℚ) +
          (((fmtScaled p q).natAbs % 10 ^ p : ℕ) : ℚ) := by
      exact_mod_cast (Nat.div_add_mod (fmtScaled p q).natAbs (10 ^ p)).symm
    have hten : ((10 : ℚ) ^ p) ≠ 0 := by positivity
    rw [hm]
    field_simp
    ring
  unfold parseFloat
  rw [htrim, hcontent]
  by_cases hn : fmtScaled p q < 0
  · rw [if_pos hn]
    simp only [List.singleton_append, parseFloatT]
    rw [if_pos trivial]
    rw [parseFloatBody_core _ _ p hp hfp]
    simp only [Option.map]
    congr 1
    rw [hval]
    have habs : ((fmtScaled p q).natAbs : ℚ) = -((fmtScaled p q : ℤ) : ℚ) := by
      rw [Int.cast_natAbs]
      rw [abs_of_neg (by exact_mod_cast hn)]
      rw [Int.cast_neg]
    rw [habs]
    ring
  · rw [if_neg hn]
    simp only [List.nil_append]
    obtain ⟨c, cs, e⟩ := renderNat_cons ((fmtScaled p q).natAbs / 10 ^ p)
    have hc : isDig c = true := by
      have hdig := renderNat_all_isDig ((fmtScaled p q).natAbs / 10 ^ p)
      rw [e, List.all_cons, Bool.and_eq_true] at hdig
      exact hdig.1
    rw [e, List.cons_append]
    simp only [parseFloatT]
    rw [if_neg (isDig_ne_minus c hc), if_neg (isDig_ne_plus c hc), ← List.cons_append, ← e]
    rw [parseFloatBody_core _ _ p hp hfp]
    congr 1
    rw [hval]
    have habs : ((fmtScaled p q).natAbs : ℚ) = ((fmtScaled p q : ℤ) : ℚ) := by
      rw [Int.cast_natAbs]
      rw [abs_of_nonneg (by exact_mod_cast (by omega : (0 : ℤ) ≤ fmtScaled p q))]
    rw [habs]

/-! ## Lemmas: field widths and dot positions -/

theorem crdFmtField_length (p : ℕ) (v : ℚ) : (crdFmtField p v).length = 5 + p := by
  unfold crdFmtField
  unfold fmtFixed
  exact take_padLeft_length _ _ _

theorem velFmtField_length (p : ℕ) (v : ℚ) : (velFmtField p v).length = 5 + p := by
  unfold velFmtField
  unfold fmtFixed
  exact take_padLeft_length _ _ _

theorem fmtContent_length (p : ℕ) (q : ℚ) (hp : 1 ≤ p) :
    (fmtContent p q).length = (if fmtScaled p q < 0 then 1 else 0) +
      (renderNat ((fmtScaled p q).natAbs / 10 ^ p)).length + 1 + p := by
  rw [fmtContent_eq p q hp]
  rw [List.length_append, List.length_append, List.length_cons,
    fracPad_length p _ hp (Nat.mod_lt _ (Nat.pos_pow_of_pos p (by norm_num)))]
  split <;> simp <;> omega

theorem fmtContent_length_le (p k : ℕ) (q : ℚ) (hp : 1 ≤ p) (hk : 1 ≤ k)
    (hb : (fmtScaled p q).natAbs < 10 ^ (k + p)) :
    (fmtContent p q).length ≤ 1 + k + 1 + p := by
  rw [fmtContent_length p q hp]
  have hip : (fmtScaled p q).natAbs / 10 ^ p < 10 ^ k := by
    rw [Nat.div_lt_iff_lt_mul (Nat.pos_pow_of_pos p (by norm_num))]
    calc (fmtScaled p q).natAbs < 10 ^ (k + p) := hb
    _ = 10 ^ k * 10 ^ p := pow_add 10 k p
  have := renderNat_length_le k _ hk hip
  split <;> omega

theorem round_nonneg_q (q : ℚ) (h : 0 ≤ q) : 0 ≤ round q := by
  rw [round_eq]
  exact Int.le_floor.mpr (by push_cast; linarith)

theorem round_abs_le (q : ℚ) (b : ℚ) (h : |q| ≤ b) : |(round q : ℚ)| ≤ b + 1 / 2 := by
  have h1 := abs_sub_round q
  rw [abs_le] at h1 ⊢
  have h2 := le_abs_self q
  have h3 := neg_abs_le q
  constructor <;> linarith

/-- No decimal point anywhere in the string. -/
def noDot (l : List Char) : Bool := l.all (fun c => !(c == '.'))

theorem noDot_append (A B : List Char) :
    noDot (A ++ B) = (noDot A && noDot B) := by
  unfold noDot
  exact List.all_append

theorem noDot_replicate (m : ℕ) (c : Char) (h : c ≠ '.') :
    noDot (List.replicate m c) = true := by
  unfold noDot
  rw [List.all_eq_true]
  intro x hx
  rw [List.eq_of_mem_replicate hx]
  simpa using h

theorem noDot_of_all_isDig (s : List Char) (h : s.all isDig = true) : noDot s = true := by
  unfold noDot
  rw [List.all_eq_true] at h ⊢
  intro c hc
  simpa using isDig_ne_dot c (h c hc)

theorem noDot_renderNat (n : ℕ) : noDot (renderNat n) = true :=
  noDot_of_all_isDig _ (renderNat_all_isDig n)

theorem noDot_fmtInt (w : ℕ) (n : ℕ) : noDot (fmtInt w (n : ℤ)) = true := by
  unfold fmtInt renderInt padLeft
  rw [if_neg (by omega), Int.natAbs_ofNat, noDot_append, Bool.and_eq_true]
  exact ⟨noDot_replicate _ _ (by decide), noDot_renderNat n⟩

theorem fmtInt_length (w n : ℕ) (h : n < 10 ^ w) (hw : 1 ≤ w) :
    (fmtInt w (n : ℤ)).length = w := by
  unfold fmtInt renderInt
  rw [if_neg (by omega), Int.natAbs_ofNat, padLeft_length]
  have := renderNat_length_le w n hw h
  omega

theorem fmtStrL_length (w : ℕ) (s : List Char) (h : s.length ≤ w) :
    (fmtStrL w s).length = w := by
  unfold fmtStrL
  rw [List.length_append, List.length_replicate]
  omega

theorem fmtStrR_length (w : ℕ) (s : List Char) (h : s.length ≤ w) :
    (fmtStrR w s).length = w := by
  unfold fmtStrR
  rw [padLeft_length]
  omega

theorem noDot_fmtStrL (w : ℕ) (s : List Char) (h : noDot s = true) :
    noDot (fmtStrL w s) = true := by
  unfold fmtStrL
  rw [noDot_append, Bool.and_eq_true]
  exact ⟨h, noDot_replicate _ _ (by decide)⟩

theorem noDot_fmtStrR (w : ℕ) (s : List Char) (h : noDot s = true) :
    noDot (fmtStrR w s) = true := by
  unfold fmtStrR padLeft
  rw [noDot_append, Bool.and_eq_true]
  exact ⟨noDot_replicate _ _ (by decide), h⟩

/-! ## Lemmas: bounding the rendered width of a fixed-point field -/

theorem fmtScaled_natAbs_le (p k : ℕ) (q : ℚ) (hb : |q| ≤ 10 ^ k - 1) :
    ((fmtScaled p q).natAbs : ℤ) ≤ (10 ^ k - 1) * 10 ^ p := by
  have h1 : |q * (10 : ℚ) ^ p| ≤ ((10 : ℚ) ^ k - 1) * 10 ^ p := by
    rw [abs_mul, abs_pow, abs_of_nonneg (by norm_num : (0:ℚ) ≤ 10)]
    have hpow : (0 : ℚ) < 10 ^ p := by positivity
    exact mul_le_mul_of_nonneg_right hb (le_of_lt hpow)
  have h2 := round_abs_le (q * (10 : ℚ) ^ p) _ h1
  have h3 : |((fmtScaled p q : ℤ) : ℚ)| ≤ ((10 : ℚ) ^ k - 1) * 10 ^ p + 1 / 2 := h2
  have h4 : (((fmtScaled p q).natAbs : ℤ) : ℚ) ≤ ((10 : ℚ) ^ k - 1) * 10 ^ p + 1 / 2 := by
    push_cast [Int.cast_natAbs]
    exact h3
  by_contra hcon
  push_neg at hcon
  have h5 : ((10 ^ k - 1) * 10 ^ p : ℤ) + 1 ≤ ((fmtScaled p q).natAbs : ℤ) := hcon
  have h6 : (((10 ^ k - 1) * 10 ^ p : ℤ) : ℚ) + 1 ≤ (((fmtScaled p q).natAbs : ℤ) : ℚ) := by
    exact_mod_cast h5
  have h7 : (((10 ^ k - 1) * 10 ^ p : ℤ) : ℚ) = ((10 : ℚ) ^ k - 1) * 10 ^ p := by
    push_cast
    ring
  rw [h7] at h6
  linarith

theorem fmtScaled_ip_lt (p k : ℕ) (q : ℚ) (hb : |q| ≤ 10 ^ k - 1) :
    (fmtScaled p q).natAbs / 10 ^ p < 10 ^ k := by
  have h := fmtScaled_natAbs_le p k q hb
  have hk1 : (1 : ℤ) ≤ 10 ^ k := by
    have : (0 : ℤ) < 10 ^ k := by positivity
    omega
  have hnat : (fmtScaled p q).natAbs ≤ (10 ^ k - 1) * 10 ^ p := by
    have : ((10 ^ k - 1) * 10 ^ p : ℤ) = (((10 ^ k - 1) * 10 ^ p : ℕ) : ℤ) := by
      push_cast
      rw [Nat.cast_sub (by exact_mod_cast hk1)]
      push_cast
      ring
    omega
  calc (fmtScaled p q).natAbs / 10 ^ p ≤ ((10 ^ k - 1) * 10 ^ p) / 10 ^ p :=
        Nat.div_le_div_right hnat
  _ = 10 ^ k - 1 := Nat.mul_div_cancel _ (Nat.pos_pow_of_pos p (by norm_num))
  _ < 10 ^ k := by
      have : 1 ≤ 10 ^ k := Nat.one_le_pow k 10 (by norm_num)
      omega

theorem fmtContent_len_le (p k : ℕ) (q : ℚ) (hp : 1 ≤ p) (hk : 1 ≤ k)
    (hb : |q| ≤ 10 ^ k - 1) :
    (fmtContent p q).length ≤ 1 + k + 1 + p := by
  rw [fmtContent_length p q hp]
  have := renderNat_length_le k _ hk (fmtScaled_ip_lt p k q hb)
  split <;> omega

theorem fmtContent_len_le_nonneg (p k : ℕ) (q : ℚ) (hp : 1 ≤ p) (hk : 1 ≤ k)
    (hq : 0 ≤ q) (hb : q ≤ 10 ^ k - 1) :
    (fmtContent p q).length ≤ k + 1 + p := by
  rw [fmtContent_length p q hp]
  have hip := renderNat_length_le k _ hk
    (fmtScaled_ip_lt p k q (by rwa [abs_of_nonneg hq]))
  have hnn : ¬ fmtScaled p q < 0 := by
    have : (0 : ℚ) ≤ q * 10 ^ p := by positivity
    have := round_nonneg_q _ this
    unfold fmtScaled
    omega
  rw [if_neg hnn]
  omega

/-! ## Lemmas: field decomposition and dot positions -/

theorem take_of_len_le (w : ℕ) (l : List Char) (h : l.length ≤ w) : l.take w = l :=
  List.take_of_length_le h

theorem fmtFixed_length_of_fit (w p : ℕ) (q : ℚ) (h : (fmtContent p q).length ≤ w) :
    (fmtFixed w p q).length = w := by
  unfold fmtFixed
  rw [padLeft_length]
  omega

theorem fmtFixed_take_of_fit (w p : ℕ) (q : ℚ) (h : (fmtContent p q).length ≤ w) :
    (fmtFixed w p q).take w = fmtFixed w p q :=
  take_of_len_le w _ (le_of_eq (fmtFixed_length_of_fit w p q h))

theorem fmtFixed_decomp (w p : ℕ) (q : ℚ) (hp : 1 ≤ p)
    (h : (fmtContent p q).length ≤ w) :
    ∃ X : List Char,
      fmtFixed w p q =
        X ++ '.' :: padLeft '0' p (renderNat ((fmtScaled p q).natAbs % 10 ^ p)) ∧
      X.length = w - (p + 1) ∧ noDot X = true := by
  refine ⟨List.replicate (w - (fmtContent p q).length) ' ' ++
    ((if fmtScaled p q < 0 then ['-'] else []) ++
      renderNat ((fmtScaled p q).natAbs / 10 ^ p)), ?_, ?_, ?_⟩
  · unfold fmtFixed padLeft
    rw [fmtContent_eq p q hp]
    simp [List.append_assoc, padLeft]
  · rw [List.length_append, List.length_append, List.length_replicate]
    have hlen := fmtContent_length p q hp
    have hfp : (fmtScaled p q).natAbs % 10 ^ p < 10 ^ p :=
      Nat.mod_lt _ (Nat.pos_pow_of_pos p (by norm_num))
    split <;> (simp only [List.length_cons, List.length_nil]; split at hlen <;> omega)
  · rw [noDot_append, noDot_append, Bool.and_eq_true, Bool.and_eq_true]
    refine ⟨noDot_replicate _ _ (by decide), ?_, noDot_renderNat _⟩
    split <;> decide

theorem dotIdxsFrom_append (k : ℕ) (A B : List Char) :
    dotIdxsFrom k (A ++ B) = dotIdxsFrom k A ++ dotIdxsFrom (k + A.length) B := by
  induction A generalizing k with
  | nil => simp [dotIdxsFrom]
  | cons c cs ih =>
    simp only [List.cons_append, dotIdxsFrom, List.append_eq]
    by_cases hc : c = '.'
    · rw [if_pos hc, if_pos hc, ih (k + 1), List.cons_append, List.length_cons]
      have he : k + 1 + cs.length = k + (cs.length + 1) := by omega
      rw [he]
    · rw [if_neg hc, if_neg hc, ih (k + 1), List.length_cons]
      have he : k + 1 + cs.length = k + (cs.length + 1) := by omega
      rw [he]

theorem dotIdxsFrom_noDot (k : ℕ) (A : List Char) (h : noDot A = true) :
    dotIdxsFrom k A = [] := by
  induction A generalizing k with
  | nil => rfl
  | cons c cs ih =>
    unfold noDot at h
    rw [List.all_cons, Bool.and_eq_true] at h
    have hc : ¬ c = '.' := by simpa using h.1
    simp only [dotIdxsFrom, if_neg hc]
    exact ih (k + 1) (by unfold noDot; exact h.2)

theorem dotIdxsFrom_cons_dot (k : ℕ) (B : List Char) :
    dotIdxsFrom k ('.' :: B) = k :: dotIdxsFrom (k + 1) B := by
  simp [dotIdxsFrom]

/-! ## Lemmas: slicing concatenated fixed-width fields -/

theorem pySlice_drop (l : List Char) (a b : ℕ) :
    pySlice l a b = (l.drop a).take (b - a) := rfl

theorem drop_append_len (A B : List Char) (a : ℕ) (h : A.length = a) :
    (A ++ B).drop a = B := by
  subst h
  exact List.drop_left A B

theorem pySlice_field (A F R : List Char) (a w : ℕ)
    (hA : A.length = a) (hF : F.length = w) :
    pySlice (A ++ F ++ R) a (a + w) = F := by
  rw [pySlice_drop, List.append_assoc, drop_append_len A (F ++ R) a hA]
  rw [Nat.add_sub_cancel_left]
  subst hF
  exact List.take_left F R

theorem pySlice_oob (l : List Char) (a b : ℕ) (h : l.length ≤ a) :
    pySlice l a b = [] := by
  rw [pySlice_drop, List.drop_eq_nil_of_le h, List.take_nil]

/-! ## Lemmas: whitespace splitting of the box line -/

theorem splitWsAux_skip_ws (m : ℕ) (t : List Char) :
    splitWsAux (List.replicate m ' ' ++ t) [] = splitWsAux t [] := by
  induction m with
  | zero => rfl
  | succ j ih =>
    rw [List.replicate_succ, List.cons_append]
    show splitWsAux (' ' :: (List.replicate j ' ' ++ t)) [] = splitWsAux t []
    rw [show splitWsAux (' ' :: (List.replicate j ' ' ++ t)) [] =
      splitWsAux (List.replicate j ' ' ++ t) [] from by simp [splitWsAux, isWs]]
    exact ih

theorem splitWsAux_word (w : List Char) (hw : w.all (fun c => !isWs c) = true) :
    ∀ (t acc : List Char), splitWsAux (w ++ t) acc = splitWsAux t (w.reverse ++ acc) := by
  induction w with
  | nil => intro t acc; simp
  | cons c cs ih =>
    intro t acc
    rw [List.all_cons, Bool.and_eq_true, Bool.not_eq_true'] at hw
    rw [List.cons_append]
    show splitWsAux (c :: (cs ++ t)) acc = _
    rw [show splitWsAux (c :: (cs ++ t)) acc = splitWsAux (cs ++ t) (c :: acc) from by
      simp [splitWsAux, hw.1]]
    rw [ih hw.2 t (c :: acc)]
    simp

theorem splitWsAux_flush (c : Char) (t acc : List Char) (hc : isWs c = true)
    (hacc : acc ≠ []) :
    splitWsAux (c :: t) acc = acc.reverse :: splitWsAux t [] := by
  show splitWsAux (c :: t) acc = _
  simp [splitWsAux, hc, hacc, List.isEmpty_iff]

theorem splitWsAux_final (acc : List Char) (hacc : acc ≠ []) :
    splitWsAux [] acc = [acc.reverse] := by
  simp [splitWsAux, hacc, List.isEmpty_iff]

theorem splitWsAux_single (w : List Char) (hw : w.all (fun c => !isWs c) = true)
    (hn : w ≠ []) : splitWsAux w [] = [w] := by
  have h := splitWsAux_word w hw [] []
  rw [List.append_nil] at h
  rw [h, List.append_nil, splitWsAux_final _ (by simpa using hn), List.reverse_reverse]

theorem splitWs_three_words (m1 k2 k3 : ℕ) (w1 w2 w3 : List Char)
    (h1 : w1.all (fun c => !isWs c) = true) (h1n : w1 ≠ [])
    (h2 : w2.all (fun c => !isWs c) = true) (h2n : w2 ≠ [])
    (h3 : w3.all (fun c => !isWs c) = true) (h3n : w3 ≠ []) :
    splitWs (List.replicate m1 ' ' ++ (w1 ++ (List.replicate (k2 + 1) ' ' ++ (w2 ++
      (List.replicate (k3 + 1) ' ' ++ w3))))) = [w1, w2, w3] := by
  unfold splitWs
  rw [splitWsAux_skip_ws]
  rw [splitWsAux_word w1 h1, List.append_nil]
  rw [List.replicate_succ, List.cons_append]
  rw [splitWsAux_flush ' ' _ _ (by rfl) (by simpa using h1n), List.reverse_reverse]
  rw [splitWsAux_skip_ws]
  rw [splitWsAux_word w2 h2, List.append_nil]
  rw [List.replicate_succ, List.cons_append]
  rw [splitWsAux_flush ' ' _ _ (by rfl) (by simpa using h2n), List.reverse_reverse]
  rw [splitWsAux_skip_ws]
  rw [splitWsAux_single w3 h3 h3n]

theorem trim_ne_nil_of_nonws_mem (l : List Char) (c : Char) (hc : c ∈ l)
    (hnw : isWs c = false) : trim l ≠ [] := by
  intro h
  unfold trim at h
  rw [List.reverse_eq_nil_iff] at h
  have h2 : ∀ x ∈ (trimL l).reverse, isWs x = true := by
    have := List.dropWhile_eq_nil_iff.mp h
    simpa [trimL] using this
  have hcin : c ∈ trimL l := by
    have hsplit := List.takeWhile_append_dropWhile (p := isWs) (l := l)
    rw [← hsplit] at hc
    rcases List.mem_append.mp hc with hmem | hmem
    · have := List.mem_takeWhile_imp hmem
      rw [hnw] at this
      cases this
    · exact hmem
  have := h2 c (List.mem_reverse.mpr hcin)
  rw [hnw] at this
  cases this

/-! ## Lemmas: decoding an encoded atom line -/

theorem pySlice_head (F R : List Char) (w : ℕ) (hF : F.length = w) :
    pySlice (F ++ R) 0 w = F := by
  rw [pySlice_drop, List.drop_zero, Nat.sub_zero, ← hF]
  exact List.take_left F R

theorem pySlice_skip (F R : List Char) (a b f : ℕ) (hF : F.length = f) (hf : f ≤ a) :
    pySlice (F ++ R) a b = pySlice R (a - f) (b - f) := by
  rw [pySlice_drop, pySlice_drop]
  have hdrop : (F ++ R).drop a = R.drop (a - f) := by
    subst hF
    conv_lhs => rw [show a = F.length + (a - F.length) from by omega]
    exact List.drop_append (a - F.length)
  rw [hdrop]
  congr 1
  omega

theorem dotIdxsFrom_skip (k f : ℕ) (F R : List Char) (hnd : noDot F = true)
    (hF : F.length = f) :
    dotIdxsFrom k (F ++ R) = dotIdxsFrom (k + f) R := by
  rw [dotIdxsFrom_append, dotIdxsFrom_noDot _ _ hnd, hF, List.nil_append]

/-- Well-formedness of a residue or atom name for the round-trip: nonempty,
at most 5 display columns, and free of whitespace and decimal points. -/
def GoodName (s : List Char) : Prop :=
  s ≠ [] ∧ s.length ≤ 5 ∧ s.all (fun c => !isWs c && !(c == '.')) = true

theorem GoodName.nonWs {s : List Char} (h : GoodName s) :
    s.all (fun c => !isWs c) = true := by
  rw [List.all_eq_true]
  intro c hc
  have := List.all_eq_true.mp h.2.2 c hc
  rw [Bool.and_eq_true] at this
  exact this.1

theorem GoodName.noDotName {s : List Char} (h : GoodName s) : noDot s = true := by
  unfold noDot
  rw [List.all_eq_true]
  intro c hc
  have := List.all_eq_true.mp h.2.2 c hc
  rw [Bool.and_eq_true] at this
  exact this.2

/-- The value `parse` stores for one written coordinate: the field holds
`round(v/10 * 1000)/1000` nanometers, which `parse` scales by 10. -/
def decCoord (v : ℚ) : ℚ := ((fmtScaled 3 (v / 10) : ℤ) : ℚ) / 10 ^ 3 * 10

theorem decCoord_close (v : ℚ) : |decCoord v - v| ≤ 1 / 200 := by
  unfold decCoord fmtScaled
  have h := abs_sub_round (v / 10 * (10 : ℚ) ^ 3)
  have h3 : ((10 : ℚ) ^ 3) = 1000 := by norm_num
  rw [h3] at h ⊢
  have : (round (v / 10 * 1000) : ℚ) / 1000 * 10 - v =
      ((round (v / 10 * 1000) : ℚ) - v / 10 * 1000) / 100 := by ring
  rw [this, abs_div, abs_of_nonneg (by norm_num : (0:ℚ) ≤ 100)]
  rw [abs_sub_comm] at h
  linarith

theorem fit_of_abs_lt (v : ℚ) (hvb : |v| < 1000) :
    (fmtContent 3 (v / 10)).length ≤ 8 := by
  have habs : |v / 10| ≤ 10 ^ 3 - 1 := by
    rw [abs_div, abs_of_nonneg (by norm_num : (0:ℚ) ≤ 10)]
    have h1 : |v| / 10 < 100 := by linarith
    have : (10 : ℚ) ^ 3 - 1 = 999 := by norm_num
    rw [this]
    linarith
  have h := fmtContent_len_le 3 3 (v / 10) (by norm_num) (by norm_num) habs
  omega

theorem crdFmtField_eq_of_fit (v : ℚ) (hvb : |v| < 1000) :
    crdFmtField 3 v = fmtFixed 8 3 (v / 10) := by
  unfold crdFmtField
  exact fmtFixed_take_of_fit 8 3 _ (fit_of_abs_lt v hvb)

theorem parseAtomLine_encode (hv : Bool) (i : ℕ) (a : SAtom) (layout? : Option Layout)
    (hlay : layout? = none ∨ layout? = some ⟨8, 24, 32⟩)
    (hname : GoodName a.name) (hres : GoodName a.resName)
    (hi : i + 1 < 100000) (hr : a.residueIdx + 1 < 100000)
    (hx : |a.xx| < 1000) (hy : |a.xy| < 1000) (hz : |a.xz| < 1000) :
    parseAtomLine layout? (encodeAtomLine 3 hv i a) =
      .ok (⟨((a.residueIdx + 1 : ℕ) : ℤ), a.resName, a.name, ((i + 1 : ℕ) : ℤ),
        decCoord a.xx, decCoord a.xy, decCoord a.xz, none⟩, ⟨8, 24, 32⟩) := by
  have hcastR : (a.residueIdx : ℤ) + 1 = ((a.residueIdx + 1 : ℕ) : ℤ) := by push_cast; ring
  have hcastI : (i : ℤ) + 1 = ((i + 1 : ℕ) : ℤ) := by push_cast; ring
  set F1 := fmtInt 5 ((a.residueIdx : ℤ) + 1) with hF1
  set F2 := fmtStrL 5 a.resName with hF2
  set F3 := fmtStrR 5 a.name with hF3
  set F4 := fmtInt 5 ((i : ℤ) + 1) with hF4
  set C1 := crdFmtField 3 a.xx with hC1
  set C2 := crdFmtField 3 a.xy with hC2
  set C3 := crdFmtField 3 a.xz with hC3
  set V := (if hv then
      match a.vel with
      | some (vx, vy, vz) => velFmtField 3 vx ++ velFmtField 3 vy ++ velFmtField 3 vz
      | none => []
    else []) with hV
  set L := encodeAtomLine 3 hv i a with hL
  have hLnest : L = F1 ++ (F2 ++ (F3 ++ (F4 ++ (C1 ++ (C2 ++ (C3 ++ V)))))) := by
    rw [hL]
    unfold encodeAtomLine
    rw [hF1, hF2, hF3, hF4, hC1, hC2, hC3, hV]
    simp only [List.append_assoc]
  -- field lengths
  have hF1len : F1.length = 5 := by
    rw [hF1, hcastR]
    exact fmtInt_length 5 _ (by norm_num; omega) (by norm_num)
  have hF2len : F2.length = 5 := fmtStrL_length 5 _ hres.2.1
  have hF3len : F3.length = 5 := fmtStrR_length 5 _ hname.2.1
  have hF4len : F4.length = 5 := by
    rw [hF4, hcastI]
    exact fmtInt_length 5 _ (by norm_num; omega) (by norm_num)
  have hC1eq : C1 = fmtFixed 8 3 (a.xx / 10) := by rw [hC1]; exact crdFmtField_eq_of_fit _ hx
  have hC2eq : C2 = fmtFixed 8 3 (a.xy / 10) := by rw [hC2]; exact crdFmtField_eq_of_fit _ hy
  have hC3eq : C3 = fmtFixed 8 3 (a.xz / 10) := by rw [hC3]; exact crdFmtField_eq_of_fit _ hz
  have hC1len : C1.length = 8 := by
    rw [hC1eq]; exact fmtFixed_length_of_fit 8 3 _ (fit_of_abs_lt _ hx)
  have hC2len : C2.length = 8 := by
    rw [hC2eq]; exact fmtFixed_length_of_fit 8 3 _ (fit_of_abs_lt _ hy)
  have hC3len : C3.length = 8 := by
    rw [hC3eq]; exact fmtFixed_length_of_fit 8 3 _ (fit_of_abs_lt _ hz)
  have hVle : V.length ≤ 24 := by
    rw [hV]
    split
    · cases hvel : a.vel with
      | none => simp
      | some v =>
        obtain ⟨vx, vy, vz⟩ := v
        simp [velFmtField_length]
    · simp
  have hLlen : L.length = 44 + V.length := by
    rw [hLnest]
    simp only [List.length_append, hF1len, hF2len, hF3len, hF4len, hC1len, hC2len, hC3len]
    omega
  -- decompositions of the coordinate fields around their decimal points
  obtain ⟨X1, hX1eq, hX1len, hX1nd⟩ :=
    fmtFixed_decomp 8 3 (a.xx / 10) (by norm_num) (fit_of_abs_lt _ hx)
  obtain ⟨X2, hX2eq, hX2len, hX2nd⟩ :=
    fmtFixed_decomp 8 3 (a.xy / 10) (by norm_num) (fit_of_abs_lt _ hy)
  obtain ⟨X3, hX3eq, hX3len, hX3nd⟩ :=
    fmtFixed_decomp 8 3 (a.xz / 10) (by norm_num) (fit_of_abs_lt _ hz)
  have hG1len : (padLeft '0' 3 (renderNat ((fmtScaled 3 (a.xx / 10)).natAbs % 10 ^ 3))).length = 3 :=
    fracPad_length 3 _ (by norm_num) (Nat.mod_lt _ (by norm_num))
  have hG2len : (padLeft '0' 3 (renderNat ((fmtScaled 3 (a.xy / 10)).natAbs % 10 ^ 3))).length = 3 :=
    fracPad_length 3 _ (by norm_num) (Nat.mod_lt _ (by norm_num))
  have hG3len : (padLeft '0' 3 (renderNat ((fmtScaled 3 (a.xz / 10)).natAbs % 10 ^ 3))).length = 3 :=
    fracPad_length 3 _ (by norm_num) (Nat.mod_lt _ (by norm_num))
  have hG1nd : noDot (padLeft '0' 3 (renderNat ((fmtScaled 3 (a.xx / 10)).natAbs % 10 ^ 3))) = true :=
    noDot_of_all_isDig _ (fracPad_all_isDig _ _)
  have hG2nd : noDot (padLeft '0' 3 (renderNat ((fmtScaled 3 (a.xy / 10)).natAbs % 10 ^ 3))) = true :=
    noDot_of_all_isDig _ (fracPad_all_isDig _ _)
  have hF1nd : noDot F1 = true := by
    rw [hF1, hcastR]; exact noDot_fmtInt 5 _
  have hF2nd : noDot F2 = true := by rw [hF2]; exact noDot_fmtStrL 5 _ hres.noDotName
  have hF3nd : noDot F3 = true := by rw [hF3]; exact noDot_fmtStrR 5 _ hname.noDotName
  have hF4nd : noDot F4 = true := by
    rw [hF4, hcastI]; exact noDot_fmtInt 5 _
  -- the dot indices of the line
  have hdots : dotIdxs L = 24 :: 32 :: 40 :: dotIdxsFrom 41
      (padLeft '0' 3 (renderNat ((fmtScaled 3 (a.xz / 10)).natAbs % 10 ^ 3)) ++ V) := by
    unfold dotIdxs
    rw [hLnest]
    rw [dotIdxsFrom_skip 0 5 F1 _ hF1nd hF1len]
    rw [dotIdxsFrom_skip _ 5 F2 _ hF2nd hF2len]
    rw [dotIdxsFrom_skip _ 5 F3 _ hF3nd hF3len]
    rw [dotIdxsFrom_skip _ 5 F4 _ hF4nd hF4len]
    rw [hC1eq, hX1eq, List.append_assoc, List.cons_append]
    rw [dotIdxsFrom_skip _ 4 X1 _ hX1nd (by omega)]
    rw [dotIdxsFrom_cons_dot]
    rw [dotIdxsFrom_skip _ 3 _ _ hG1nd hG1len]
    rw [hC2eq, hX2eq, List.append_assoc, List.cons_append]
    rw [dotIdxsFrom_skip _ 4 X2 _ hX2nd (by omega)]
    rw [dotIdxsFrom_cons_dot]
    rw [dotIdxsFrom_skip _ 3 _ _ hG2nd hG2len]
    rw [hC3eq, hX3eq, List.append_assoc, List.cons_append]
    rw [dotIdxsFrom_skip _ 4 X3 _ hX3nd (by omega)]
    rw [dotIdxsFrom_cons_dot]
  have hd20 : dotIdxFrom L 20 = some 24 := by
    unfold dotIdxFrom
    rw [hdots]
    exact List.find?_cons_of_pos _ (by decide)
  have hd25 : dotIdxFrom L 25 = some 32 := by
    unfold dotIdxFrom
    rw [hdots]
    rw [List.find?_cons_of_neg _ (by decide)]
    exact List.find?_cons_of_pos _ (by decide)
  have hinf : inferLayout L = .ok ⟨8, 24, 32⟩ := by
    unfold inferLayout
    rw [hd20, optStep_some, hd25, optStep_some]
  -- the fixed slices
  have hs05 : pySlice L 0 5 = F1 := by
    rw [hLnest]; exact pySlice_head _ _ _ hF1len
  have hs510 : pySlice L 5 10 = F2 := by
    rw [hLnest, pySlice_skip F1 _ 5 10 5 hF1len (by norm_num)]
    exact pySlice_head _ _ _ hF2len
  have hs1015 : pySlice L 10 15 = F3 := by
    rw [hLnest, pySlice_skip F1 _ 10 15 5 hF1len (by norm_num),
      pySlice_skip F2 _ 5 10 5 hF2len (by norm_num)]
    exact pySlice_head _ _ _ hF3len
  have hs1520 : pySlice L 15 20 = F4 := by
    rw [hLnest, pySlice_skip F1 _ 15 20 5 hF1len (by norm_num),
      pySlice_skip F2 _ 10 15 5 hF2len (by norm_num),
      pySlice_skip F3 _ 5 10 5 hF3len (by norm_num)]
    exact pySlice_head _ _ _ hF4len
  have hs2028 : pySlice L 20 28 = C1 := by
    rw [hLnest, pySlice_skip F1 _ 20 28 5 hF1len (by norm_num),
      pySlice_skip F2 _ 15 23 5 hF2len (by norm_num),
      pySlice_skip F3 _ 10 18 5 hF3len (by norm_num),
      pySlice_skip F4 _ 5 13 5 hF4len (by norm_num)]
    exact pySlice_head _ _ _ hC1len
  have hs2836 : pySlice L 28 36 = C2 := by
    rw [hLnest, pySlice_skip F1 _ 28 36 5 hF1len (by norm_num),
      pySlice_skip F2 _ 23 31 5 hF2len (by norm_num),
      pySlice_skip F3 _ 18 26 5 hF3len (by norm_num),
      pySlice_skip F4 _ 13 21 5 hF4len (by norm_num),
      pySlice_skip C1 _ 8 16 8 hC1len (by norm_num)]
    exact pySlice_head _ _ _ hC2len
  have hs3644 : pySlice L 36 44 = C3 := by
    rw [hLnest, pySlice_skip F1 _ 36 44 5 hF1len (by norm_num),
      pySlice_skip F2 _ 31 39 5 hF2len (by norm_num),
      pySlice_skip F3 _ 26 34 5 hF3len (by norm_num),
      pySlice_skip F4 _ 21 29 5 hF4len (by norm_num),
      pySlice_skip C1 _ 16 24 8 hC1len (by norm_num),
      pySlice_skip C2 _ 8 16 8 hC2len (by norm_num)]
    exact pySlice_head _ _ _ hC3len
  -- parsed values of the fields
  have hInt1 : parseInt F1 = some ((a.residueIdx + 1 : ℕ) : ℤ) := by
    rw [hF1, hcastR]; exact parseInt_fmtInt_nat 5 _
  have hInt4 : parseInt F4 = some ((i + 1 : ℕ) : ℤ) := by
    rw [hF4, hcastI]; exact parseInt_fmtInt_nat 5 _
  have hTrim2 : trim F2 = a.resName := by
    rw [hF2]
    unfold fmtStrL
    exact trim_pad_right _ _ hres.nonWs
  have hTrim3 : trim F3 = a.name := by
    rw [hF3]
    unfold fmtStrR padLeft
    exact trim_pad_left _ _ hname.nonWs
  have hFl1 : parseFloat C1 = some ((fmtScaled 3 (a.xx / 10) : ℤ) / (10 : ℚ) ^ 3) := by
    rw [hC1eq]; exact parseFloat_fmtFixed 8 3 _ (by norm_num)
  have hFl2 : parseFloat C2 = some ((fmtScaled 3 (a.xy / 10) : ℤ) / (10 : ℚ) ^ 3) := by
    rw [hC2eq]; exact parseFloat_fmtFixed 8 3 _ (by norm_num)
  have hFl3 : parseFloat C3 = some ((fmtScaled 3 (a.xz / 10) : ℤ) / (10 : ℚ) ^ 3) := by
    rw [hC3eq]; exact parseFloat_fmtFixed 8 3 _ (by norm_num)
  have hVelSlice : pySlice L 131 168 = [] := by
    apply pySlice_oob
    omega
  -- assemble
  unfold parseAtomLine
  rw [hs05, hInt1, optStep_some, hs1520, hInt4, optStep_some]
  rcases hlay with h | h <;> subst h
  · rw [show layoutOf none L = inferLayout L from rfl, hinf, exceptStep_ok]
    simp only [hs2028, hs2836, hs3644, hFl1, hFl2, hFl3, optStep_some, hs510, hs1015,
      hTrim2, hTrim3, hVelSlice, trim_nil, ne_eq, not_true_eq_false, if_false, decCoord]
  · rw [show layoutOf (some ⟨8, 24, 32⟩) L = .ok ⟨8, 24, 32⟩ from rfl, exceptStep_ok]
    simp only [hs2028, hs2836, hs3644, hFl1, hFl2, hFl3, optStep_some, hs510, hs1015,
      hTrim2, hTrim3, hVelSlice, trim_nil, ne_eq, not_true_eq_false, if_false, decCoord]

/-! ## Lemmas: the atom loop on an encoded file -/

/-- The atom record lines `write` emits, with their running indices. -/
def encodeLines (p : ℕ) (hv : Bool) : ℕ → List SAtom → List (List Char)
  | _, [] => []
  | i, a :: rest => encodeAtomLine p hv i a :: encodeLines p hv (i + 1) rest

theorem enumFrom_map_encode (p : ℕ) (hv : Bool) :
    ∀ (l : List SAtom) (i : ℕ),
      (List.enumFrom i l).map (fun ai => encodeAtomLine p hv ai.1 ai.2) =
        encodeLines p hv i l := by
  intro l
  induction l with
  | nil => intro i; rfl
  | cons a rest ih =>
    intro i
    simp only [List.enumFrom, List.map_cons, encodeLines]
    rw [ih (i + 1)]

theorem enum_map_encode (p : ℕ) (hv : Bool) (l : List SAtom) :
    l.enum.map (fun ai => encodeAtomLine p hv ai.1 ai.2) = encodeLines p hv 0 l := by
  rw [List.enum, enumFrom_map_encode]

/-- What one atom record becomes after the write/parse round trip, before
the container assigns the residue index. -/
def parsedRec (i : ℕ) (a : SAtom) : SAtom :=
  ⟨a.name, ((i + 1 : ℕ) : ℤ), a.resName, ((a.residueIdx + 1 : ℕ) : ℤ), 0,
    decCoord a.xx, decCoord a.xy, decCoord a.xz, none⟩

/-- The atom list the loop accumulates over an encoded suffix. -/
def accFold (i : ℕ) (acc : List SAtom) : List SAtom → List SAtom
  | [] => acc
  | a :: rest => accFold (i + 1) (addAtom acc (parsedRec i a)) rest

/-- Well-formedness of one atom for the round trip. -/
def GoodAtom (a : SAtom) : Prop :=
  GoodName a.name ∧ GoodName a.resName ∧ a.residueIdx + 1 < 100000 ∧
    |a.xx| < 1000 ∧ |a.xy| < 1000 ∧ |a.xz| < 1000

theorem parseLoop_encodes (g : VecsToLA) (hv : Bool) :
    ∀ (rest : List SAtom) (i : ℕ) (acc : List SAtom) (lastL : Option (List Char))
      (boxLine : List Char) (layout? : Option Layout),
    (layout? = none ∨ layout? = some ⟨8, 24, 32⟩) →
    (∀ a ∈ rest, GoodAtom a) →
    i + rest.length < 100000 →
    parseLoop g ((i : ℤ) + rest.length) i layout? acc lastL
      (encodeLines 3 hv i rest ++ [boxLine]) =
      finishBox g (accFold i acc rest) (some boxLine) := by
  intro rest
  induction rest with
  | nil =>
    intro i acc lastL boxLine layout? _ _ _
    simp only [encodeLines, List.nil_append, List.length_nil, Nat.cast_zero, add_zero]
    show parseLoop g (i : ℤ) i layout? acc lastL (boxLine :: []) = _
    unfold parseLoop
    rw [if_pos rfl]
    rfl
  | cons a rest ih =>
    intro i acc lastL boxLine layout? hlay hgood hbound
    obtain ⟨hnm, hrs, hri, hxx, hxy, hxz⟩ := hgood a (List.mem_cons_self a rest)
    simp only [encodeLines, List.cons_append, List.length_cons]
    show parseLoop g _ i layout? acc lastL
      (encodeAtomLine 3 hv i a :: (encodeLines 3 hv (i + 1) rest ++ [boxLine])) = _
    unfold parseLoop
    rw [if_neg (by push_cast; omega)]
    rw [parseAtomLine_encode hv i a layout? hlay hnm hrs (by simp at hbound; omega) hri
      hxx hxy hxz]
    rw [exceptStep_ok]
    have hcast : ((i : ℤ) + (rest.length + 1 : ℕ)) = (((i + 1 : ℕ) : ℤ) + rest.length) := by
      push_cast
      ring
    rw [hcast]
    show parseLoop g (((i + 1 : ℕ) : ℤ) + rest.length) (i + 1) (some ⟨8, 24, 32⟩)
      (addAtom acc (parsedRec i a)) (some (encodeAtomLine 3 hv i a))
      (encodeLines 3 hv (i + 1) rest ++ [boxLine]) =
      finishBox g (accFold i acc (a :: rest)) (some boxLine)
    rw [ih (i + 1) (addAtom acc (parsedRec i a)) (some (encodeAtomLine 3 hv i a)) boxLine
      (some ⟨8, 24, 32⟩) (Or.inr rfl)
      (fun b hb => hgood b (List.mem_cons_of_mem a hb)) (by simp at hbound ⊢; omega)]
    rfl

/-! ## Lemmas: the derived box line parses -/

theorem foldl_minmax_split (f : SAtom → ℚ) (l : List SAtom) :
    ∀ mn mx : ℚ, l.foldl (fun mm a => (min mm.1 (f a), max mm.2 (f a))) (mn, mx) =
      (l.foldl (fun m a => min m (f a)) mn, l.foldl (fun m a => max m (f a)) mx) := by
  induction l with
  | nil => intro mn mx; rfl
  | cons a rest ih => intro mn mx; simp only [List.foldl_cons]; exact ih _ _

theorem foldl_min_le_init (f : SAtom → ℚ) (l : List SAtom) :
    ∀ mn : ℚ, l.foldl (fun m a => min m (f a)) mn ≤ mn := by
  induction l with
  | nil => intro mn; exact le_refl mn
  | cons a rest ih =>
    intro mn
    calc rest.foldl (fun m a => min m (f a)) (min mn (f a)) ≤ min mn (f a) := ih _
    _ ≤ mn := min_le_left _ _

theorem init_le_foldl_max (f : SAtom → ℚ) (l : List SAtom) :
    ∀ mx : ℚ, mx ≤ l.foldl (fun m a => max m (f a)) mx := by
  induction l with
  | nil => intro mx; exact le_refl mx
  | cons a rest ih =>
    intro mx
    calc mx ≤ max mx (f a) := le_max_left _ _
    _ ≤ rest.foldl (fun m a => max m (f a)) (max mx (f a)) := ih _

theorem foldl_min_lower (f : SAtom → ℚ) (lo : ℚ) (l : List SAtom) :
    ∀ mn : ℚ, lo ≤ mn → (∀ a ∈ l, lo ≤ f a) →
      lo ≤ l.foldl (fun m a => min m (f a)) mn := by
  induction l with
  | nil => intro mn h _; exact h
  | cons a rest ih =>
    intro mn h hall
    exact ih _ (le_min h (hall a (List.mem_cons_self a rest)))
      (fun b hb => hall b (List.mem_cons_of_mem a hb))

theorem foldl_max_upper (f : SAtom → ℚ) (hi : ℚ) (l : List SAtom) :
    ∀ mx : ℚ, mx ≤ hi → (∀ a ∈ l, f a ≤ hi) →
      l.foldl (fun m a => max m (f a)) mx ≤ hi := by
  induction l with
  | nil => intro mx h _; exact h
  | cons a rest ih =>
    intro mx h hall
    exact ih _ (max_le h (hall a (List.mem_cons_self a rest)))
      (fun b hb => hall b (List.mem_cons_of_mem a hb))

theorem foldl_max_ge_mem (f : SAtom → ℚ) (l : List SAtom) (c : SAtom) (hc : c ∈ l) :
    ∀ mx : ℚ, f c ≤ l.foldl (fun m a => max m (f a)) mx := by
  induction l with
  | nil => cases hc
  | cons b rest ih =>
    intro mx
    rcases List.mem_cons.mp hc with rfl | hmem
    · simp only [List.foldl_cons]
      calc f c ≤ max mx (f c) := le_max_right _ _
      _ ≤ _ := init_le_foldl_max f rest _
    · simp only [List.foldl_cons]
      exact ih hmem _

/-- Bounds for one axis of the derived box (lines 217-229): the emitted
value `(max - min + 5) / 10` is nonnegative and at most `10^3 - 1`
when every seed and every atom lies strictly within 1000 angstroms. -/
theorem derived_component_bounds (f : SAtom → ℚ) (a0 a1 : SAtom) (l : List SAtom)
    (h0 : |f a0| < 1000) (h1 : |f a1| < 1000) (hl : ∀ a ∈ l, |f a| < 1000)
    (hmem : a0 ∈ l) :
    0 ≤ ((extentFold f a0 a1 l).2 - (extentFold f a0 a1 l).1 + 5) / 10 ∧
      ((extentFold f a0 a1 l).2 - (extentFold f a0 a1 l).1 + 5) / 10 ≤ 10 ^ 3 - 1 := by
  unfold extentFold
  rw [foldl_minmax_split]
  simp only []
  rw [abs_lt] at h0 h1
  have hmn_le : l.foldl (fun m a => min m (f a)) (f a0) ≤ f a0 :=
    foldl_min_le_init f l (f a0)
  have hmx_ge : f a0 ≤ l.foldl (fun m a => max m (f a)) (f a1) :=
    foldl_max_ge_mem f l a0 hmem (f a1)
  have hmn_lo : (-1000 : ℚ) ≤ l.foldl (fun m a => min m (f a)) (f a0) :=
    foldl_min_lower f (-1000) l (f a0) (by linarith)
      (fun a ha => by have := (abs_lt.mp (hl a ha)).1; linarith)
  have hmx_hi : l.foldl (fun m a => max m (f a)) (f a1) ≤ (1000 : ℚ) :=
    foldl_max_upper f 1000 l (f a1) (by linarith)
      (fun a ha => by have := (abs_lt.mp (hl a ha)).2; linarith)
  constructor
  · have : (0 : ℚ) ≤ l.foldl (fun m a => max m (f a)) (f a1) -
        l.foldl (fun m a => min m (f a)) (f a0) + 5 := by linarith
    linarith
  · have h : l.foldl (fun m a => max m (f a)) (f a1) -
        l.foldl (fun m a => min m (f a)) (f a0) + 5 ≤ 2005 := by linarith
    have : (10 : ℚ) ^ 3 - 1 = 999 := by norm_num
    rw [this]
    linarith

theorem fmtContent_ne_nil (p : ℕ) (q : ℚ) (hp : 1 ≤ p) : fmtContent p q ≠ [] := by
  have h := fmtContent_length p q hp
  intro hc
  rw [hc] at h
  simp at h
  omega

theorem parseFloat_fmtContent (p : ℕ) (q : ℚ) (hp : 1 ≤ p) :
    parseFloat (fmtContent p q) = some ((fmtScaled p q : ℤ) / (10 : ℚ) ^ p) := by
  have h := parseFloat_fmtFixed 0 p q hp
  have he : fmtFixed 0 p q = fmtContent p q := by
    unfold fmtFixed padLeft
    rw [Nat.zero_sub]
    rfl
  rwa [he] at h

theorem finishBox_derivedLine (g : VecsToLA) (atoms2 : List SAtom) (a0 a1 : SAtom)
    (l : List SAtom)
    (h0 : GoodAtom a0) (h1 : GoodAtom a1) (hl : ∀ a ∈ l, GoodAtom a)
    (hmem : a0 ∈ l) :
    ∃ bx, finishBox g atoms2 (some (derivedBoxLine a0 a1 l)) = .ok ⟨atoms2, bx⟩ := by
  obtain ⟨hq1a, hq1b⟩ := derived_component_bounds (fun a => a.xx) a0 a1 l
    h0.2.2.2.1 h1.2.2.2.1 (fun a ha => (hl a ha).2.2.2.1) hmem
  obtain ⟨hq2a, hq2b⟩ := derived_component_bounds (fun a => a.xy) a0 a1 l
    h0.2.2.2.2.1 h1.2.2.2.2.1 (fun a ha => (hl a ha).2.2.2.2.1) hmem
  obtain ⟨hq3a, hq3b⟩ := derived_component_bounds (fun a => a.xz) a0 a1 l
    h0.2.2.2.2.2 h1.2.2.2.2.2 (fun a ha => (hl a ha).2.2.2.2.2) hmem
  set q1 := ((extentFold (fun a => a.xx) a0 a1 l).2 -
    (extentFold (fun a => a.xx) a0 a1 l).1 + 5) / 10 with hq1
  set q2 := ((extentFold (fun a => a.xy) a0 a1 l).2 -
    (extentFold (fun a => a.xy) a0 a1 l).1 + 5) / 10 with hq2
  set q3 := ((extentFold (fun a => a.xz) a0 a1 l).2 -
    (extentFold (fun a => a.xz) a0 a1 l).1 + 5) / 10 with hq3
  have hline : derivedBoxLine a0 a1 l =
      fmtFixed 10 5 q1 ++ fmtFixed 10 5 q2 ++ fmtFixed 10 5 q3 := by
    unfold derivedBoxLine derivedBoxTriple extentFold
    rfl
  have hlen1 : (fmtContent 5 q1).length ≤ 9 :=
    fmtContent_len_le_nonneg 5 3 q1 (by norm_num) (by norm_num) hq1a hq1b
  have hlen2 : (fmtContent 5 q2).length ≤ 9 :=
    fmtContent_len_le_nonneg 5 3 q2 (by norm_num) (by norm_num) hq2a hq2b
  have hlen3 : (fmtContent 5 q3).length ≤ 9 :=
    fmtContent_len_le_nonneg 5 3 q3 (by norm_num) (by norm_num) hq3a hq3b
  have hnw1 := fmtContent_all_nonWs 5 q1 (by norm_num)
  have hnw2 := fmtContent_all_nonWs 5 q2 (by norm_num)
  have hnw3 := fmtContent_all_nonWs 5 q3 (by norm_num)
  have hne1 := fmtContent_ne_nil 5 q1 (by norm_num)
  have hne2 := fmtContent_ne_nil 5 q2 (by norm_num)
  have hne3 := fmtContent_ne_nil 5 q3 (by norm_num)
  have hsplit : splitWs (derivedBoxLine a0 a1 l) =
      [fmtContent 5 q1, fmtContent 5 q2, fmtContent 5 q3] := by
    rw [hline]
    unfold fmtFixed padLeft
    rw [show (10 : ℕ) - (fmtContent 5 q2).length = (9 - (fmtContent 5 q2).length) + 1
      from by omega]
    rw [show (10 : ℕ) - (fmtContent 5 q3).length = (9 - (fmtContent 5 q3).length) + 1
      from by omega]
    simp only [List.append_assoc]
    exact splitWs_three_words _ _ _ _ _ _ hnw1 hne1 hnw2 hne2 hnw3 hne3
  obtain ⟨c, cs, hc⟩ : ∃ c cs, fmtContent 5 q1 = c :: cs := by
    cases he : fmtContent 5 q1 with
    | nil => exact absurd he hne1
    | cons c cs => exact ⟨c, cs, rfl⟩
  have hcnw : isWs c = false := by
    have := List.all_eq_true.mp hnw1 c (by rw [hc]; exact List.mem_cons_self c cs)
    simpa using this
  have hcmem : c ∈ derivedBoxLine a0 a1 l := by
    rw [hline]
    unfold fmtFixed padLeft
    rw [hc]
    simp
  have htrim : trim (derivedBoxLine a0 a1 l) ≠ [] :=
    trim_ne_nil_of_nonws_mem _ c hcmem hcnw
  simp only [finishBox]
  rw [if_neg (by simpa using htrim)]
  rw [hsplit]
  rw [show List.mapM parseFloat [fmtContent 5 q1, fmtContent 5 q2, fmtContent 5 q3] =
    some [(fmtScaled 5 q1 : ℤ) / (10 : ℚ) ^ 5, (fmtScaled 5 q2 : ℤ) / (10 : ℚ) ^ 5,
      (fmtScaled 5 q3 : ℤ) / (10 : ℚ) ^ 5] from by
    simp [List.mapM, List.mapM.loop, parseFloat_fmtContent 5 q1 (by norm_num),
      parseFloat_fmtContent 5 q2 (by norm_num), parseFloat_fmtContent 5 q3 (by norm_num)]]
  rw [optStep_some]
  rw [if_pos (show ([((fmtScaled 5 q1 : ℤ) : ℚ) / (10 : ℚ) ^ 5,
    ((fmtScaled 5 q2 : ℤ) : ℚ) / (10 : ℚ) ^ 5,
    ((fmtScaled 5 q3 : ℤ) : ℚ) / (10 : ℚ) ^ 5].length = 3) from rfl)]
  exact ⟨_, rfl⟩

/-! ## Lemmas: round-trip assembly -/

/-- What the round trip preserves of one atom: its name, its residue name,
and its position to within `1/200` angstrom per coordinate. -/
def RTRel (a b : SAtom) : Prop :=
  b.name = a.name ∧ b.resName = a.resName ∧
    |b.xx - a.xx| ≤ 1 / 200 ∧ |b.xy - a.xy| ≤ 1 / 200 ∧ |b.xz - a.xz| ≤ 1 / 200

theorem addAtom_shape (acc : List SAtom) (x : SAtom) :
    ∃ r : ℕ, addAtom acc x = acc ++ [{ x with residueIdx := r }] := by
  unfold addAtom
  split
  · exact ⟨0, rfl⟩
  · split
    · exact ⟨_, rfl⟩
    · exact ⟨_, rfl⟩

theorem accFold_rel : ∀ (rest : List SAtom) (i : ℕ) (acc : List SAtom),
    ∃ tail, accFold i acc rest = acc ++ tail ∧ List.Forall₂ RTRel rest tail := by
  intro rest
  induction rest with
  | nil =>
    intro i acc
    exact ⟨[], by simp [accFold], List.Forall₂.nil⟩
  | cons a rest ih =>
    intro i acc
    obtain ⟨r, hr⟩ := addAtom_shape acc (parsedRec i a)
    obtain ⟨tail, htail, hrel⟩ := ih (i + 1) (addAtom acc (parsedRec i a))
    refine ⟨{ parsedRec i a with residueIdx := r } :: tail, ?_, ?_⟩
    · show accFold (i + 1) (addAtom acc (parsedRec i a)) rest = _
      rw [htail, hr, List.append_assoc]
      rfl
    · refine List.Forall₂.cons ?_ hrel
      refine ⟨rfl, rfl, ?_, ?_, ?_⟩ <;>
        simpa [parsedRec] using decCoord_close _

theorem parseInt_trim_fmtInt (w n : ℕ) :
    parseInt (trim (fmtInt w (n : ℤ))) = some (n : ℤ) := by
  have h1 : trim (fmtInt w (n : ℤ)) = renderNat n := by
    unfold fmtInt renderInt padLeft
    rw [if_neg (by omega), Int.natAbs_ofNat]
    exact trim_pad_left _ _ (all_nonWs_of_all_isDig _ (renderNat_all_isDig n))
  rw [h1]
  have := parseInt_pad_renderNat 0 n
  simpa using this

theorem writeGroLines_noBox (geom : LAToVecs) (s : GroStructure) (a0 a1 : SAtom)
    (rest : List SAtom) (hbox : s.box = none) (ha : s.atoms = a0 :: a1 :: rest) :
    writeGroLines geom s 3 false =
      .ok ("GROningen MAchine for Chemical Simulation".toList ::
        fmtInt 5 (s.atoms.length : ℤ) ::
        (encodeLines 3 (s.atoms.all (fun a => a.vel.isSome)) 0 s.atoms ++
          [derivedBoxLine a0 a1 s.atoms])) := by
  unfold writeGroLines
  rw [hbox]
  simp only [enum_map_encode, ha, List.getElem?_cons_succ, List.getElem?_cons_zero,
    ne_eq, reduceCtorEq, not_false_eq_true, and_self, if_pos, List.cons_append]

theorem c3_roundtrip_core (g : VecsToLA) (geom : LAToVecs) (s : GroStructure)
    (hbox : s.box = none) (a0 a1 : SAtom) (rest : List SAtom)
    (ha : s.atoms = a0 :: a1 :: rest) (hcap : s.atoms.length < 100000)
    (hgood : ∀ a ∈ s.atoms, GoodAtom a) :
    ∃ lines s2, writeGroLines geom s 3 false = .ok lines ∧
      parseGro g lines = .ok s2 ∧ List.Forall₂ RTRel s.atoms s2.atoms := by
  set hv := s.atoms.all (fun a => a.vel.isSome) with hhv
  set n := s.atoms.length with hn
  set boxline := derivedBoxLine a0 a1 s.atoms with hbl
  set lines := "GROningen MAchine for Chemical Simulation".toList ::
    fmtInt 5 (n : ℤ) :: (encodeLines 3 hv 0 s.atoms ++ [boxline]) with hlines
  have hw := writeGroLines_noBox geom s a0 a1 rest hbox ha
  obtain ⟨tail, htail, hrel⟩ := accFold_rel s.atoms 0 []
  have hmem0 : a0 ∈ s.atoms := by rw [ha]; exact List.mem_cons_self _ _
  have hmem1 : a1 ∈ s.atoms := by rw [ha]; exact List.mem_cons_of_mem _ (List.mem_cons_self _ _)
  obtain ⟨bx, hfb⟩ := finishBox_derivedLine g tail a0 a1 s.atoms
    (hgood a0 hmem0) (hgood a1 hmem1) hgood hmem0
  refine ⟨lines, ⟨tail, bx⟩, hw, ?_, ?_⟩
  · unfold parseGro
    rw [show lines.getD 1 [] = fmtInt 5 (n : ℤ) from rfl]
    rw [parseInt_trim_fmtInt 5 n]
    rw [show lines.drop 2 = encodeLines 3 hv 0 s.atoms ++ [boxline] from rfl]
    rw [show ((n : ℕ) : ℤ) = ((0 : ℕ) : ℤ) + (s.atoms.length : ℤ) from by
      rw [hn]; push_cast; ring]
    rw [optStep_some]
    rw [parseLoop_encodes g hv s.atoms 0 [] none boxline none (Or.inl rfl) hgood
      (by omega)]
    rw [show accFold 0 [] s.atoms = tail from by rw [htail]; simp]
    exact hfb
  · exact hrel

/-! ## Claim-level definitions -/

/-- A trivial stand-in for the external vectors-to-lengths-and-angles
conversion, used to instantiate theorems whose statements do not depend on
the geometry collaborator. -/
def zeroVecsToLA : VecsToLA := fun _ _ _ => ((0, 0, 0), (0, 0, 0))

/-- A trivial stand-in for the external lengths-and-angles-to-reduced-
vectors conversion. -/
def zeroLAToVecs : LAToVecs := fun _ => (⟨0, 0, 0⟩, ⟨0, 0, 0⟩, ⟨0, 0, 0⟩)

/-- Modelled from the spec (section 4.1 step 4-5, 4.2): the spec's reading
of "the 4th field-group is non-blank" — field stride `5 + ndeci` with
`ndeci = pdeci2 - pdeci1 - 5`, groups starting at `pdeci1 - 4`, so group 4
occupies `[p0 - 4 + 3d, p0 - 4 + 4d)` for dot distance `d`. -/
def claimFourthGroupNonblank (line : List Char) : Bool :=
  match dotIdxs line with
  | p0 :: p1 :: _ =>
    let d := p1 - p0
    !(trim (pySlice line (p0 - 4 + 3 * d) (p0 - 4 + 4 * d))).isEmpty
  | _ => false

/-- The standard atom record line with velocities used as the failing
input for the velocity claims. -/
def c1Line : List Char :=
  "    1SOL     OW    1   0.126   1.624   1.679  0.1227 -0.0580  0.0434".toList

/-- A well-formed one-atom GRO file whose single record carries
velocities. -/
def c1File : List (List Char) :=
  ["MD of water".toList, "    1".toList, c1Line,
    "   1.00000   1.00000   1.00000".toList]

/-- A well-formed one-atom GRO file with no box line at all. -/
def c2File : List (List Char) :=
  ["MD of water".toList, "    1".toList,
    "    1SOL     OW    1   0.126   1.624   1.679".toList]

/-- The spec's claimed component ordering for a 9-value box line:
`(v1x, v2x, v2y, v3x, v3y, v3z, v1y, v1z, v2z)`. -/
def claimBoxVectors (box : List ℚ) : V3 × V3 × V3 :=
  (⟨box.getD 0 0, box.getD 6 0, box.getD 7 0⟩,
   ⟨box.getD 1 0, box.getD 2 0, box.getD 8 0⟩,
   ⟨box.getD 3 0, box.getD 4 0, box.getD 5 0⟩)

/-- The derived box the spec's words describe: min/max extent plus a
5-angstrom margin on EACH side (10 angstroms per axis), over 10. -/
def claimDerivedBoxTriple (a0 a1 : SAtom) (atoms : List SAtom) : ℚ × ℚ × ℚ :=
  let xd := extentFold (·.xx) a0 a1 atoms
  let yd := extentFold (·.xy) a0 a1 atoms
  let zd := extentFold (·.xz) a0 a1 atoms
  ((xd.2 - xd.1 + 10) / 10, (yd.2 - yd.1 + 10) / 10, (zd.2 - zd.1 + 10) / 10)

/-- Minimum of `f` over the atoms of a nonempty list (first element as
seed), the specification-level extent. -/
def axisMin (f : SAtom → ℚ) : List SAtom → ℚ
  | [] => 0
  | a :: rest => rest.foldl (fun m b => min m (f b)) (f a)

/-- Maximum of `f` over the atoms of a nonempty list. -/
def axisMax (f : SAtom → ℚ) : List SAtom → ℚ
  | [] => 0
  | a :: rest => rest.foldl (fun m b => max m (f b)) (f a)

/-- Two atoms at x-extent 10 angstroms: the code derives a box edge of
`(10 + 5)/10 = 1.5` nanometers, the spec's words demand
`(10 + 10)/10 = 2` nanometers. -/
def c5AtomA : SAtom := ⟨"OW".toList, 1, "SOL".toList, 1, 0, 0, 0, 0, none⟩

def c5AtomB : SAtom := ⟨"HW".toList, 2, "SOL".toList, 1, 0, 10, 0, 0, none⟩

/-- One-atom structure with no box: `write`'s no-box path crashes on
`struct.atoms[1]`. -/
def c7OneAtom : GroStructure := ⟨[c5AtomA], none⟩

/-- Third line with valid integer and name fields but no decimal point
anywhere: `id_format` raises `IndexError` at `pdeci[1]`. -/
def c8File : List (List Char) :=
  ["MD of water".toList, "    4".toList, "    1SOL     OW    1 hello".toList]

/-- First atom line with a blank residue-name field: `parse` accepts it,
the sniffer rejects it. -/
def c9File : List (List Char) :=
  ["MD of water".toList, "    1".toList,
    "    1        OW    1   1.000   1.000   1.000".toList,
    "   1.00000   1.00000   1.00000".toList]

/-- The atom whose x-coordinate 0.004 angstrom rounds to zero in the
written file. -/
def c3AtomA : SAtom := ⟨"OW".toList, 1, "SOL".toList, 1, 0, 4 / 1000, 0, 0, none⟩

def c3AtomB : SAtom := ⟨"HW".toList, 2, "SOL".toList, 1, 0, 10, 0, 0, none⟩

def c3Struct : GroStructure := ⟨[c3AtomA, c3AtomB], none⟩

/-! ## Claim theorems -/

/-- C1 (code bug): on a standard record line whose 4th field-group is
non-blank (velocities present, validated by `id_format` itself), `parse`
returns the atom with no velocity: its presence test reuses the absolute
dot position `ndeci` where `id_format` uses the dot distance minus 5, so
it inspects columns at index 131 and beyond, which are blank on every
standard line. -/
theorem c1_parse_drops_velocity :
    idFormat c1File = .ok true ∧
    claimFourthGroupNonblank c1Line = true ∧
    (parseGro zeroVecsToLA c1File).map (fun s => s.atoms.map (fun a => a.vel)) =
      .ok [none] := by
  with_unfolding_all decide

/-- C2 (code bug): a well-formed file whose box line is absent entirely
makes `parse` raise `GromacsError` — the loop variable still holds the
last atom record, the `if line.strip()` guard sees it non-blank, and
float-parsing its tokens fails; appending a box line to the very same
file parses fine. -/
theorem c2_missing_box_line_errors :
    parseGro zeroVecsToLA c2File = .error .gromacs ∧
    (parseGro zeroVecsToLA
      (c2File ++ ["   1.00000   1.00000   1.00000".toList])).isOk = true := by
  with_unfolding_all decide

/-- C4 (counterexample): on the box line `1 2 ... 9` the code's vector
assignment differs from the ordering the claim names
`(v1x, v2x, v2y, v3x, v3y, v3z, v1y, v1z, v2z)`. -/
theorem c4_claimed_ordering_wrong :
    groBoxVectors [1, 2, 3, 4, 5, 6, 7, 8, 9] ≠
      claimBoxVectors [1, 2, 3, 4, 5, 6, 7, 8, 9] := by
  with_unfolding_all decide

/-- C4 (amended): the 9 values are interpreted as
`(v1x, v2y, v3z, v1y, v1z, v2x, v2z, v3x, v3y)` — vectors
`(box0, box3, box4)`, `(box5, box1, box6)`, `(box7, box8, box2)` — and
`write` emits its nine components in exactly that ordering, so decoding
the emitted list recovers the vectors scaled by `1/10`. -/
theorem c4_box_ordering_amended (b0 b1 b2 b3 b4 b5 b6 b7 b8 : ℚ) (v1 v2 v3 : V3) :
    groBoxVectors [b0, b1, b2, b3, b4, b5, b6, b7, b8] =
      (⟨b0, b3, b4⟩, ⟨b5, b1, b6⟩, ⟨b7, b8, b2⟩) ∧
    writeBox9 v1 v2 v3 = [v1.x / 10, v2.y / 10, v3.z / 10, v1.y / 10, v1.z / 10,
      v2.x / 10, v2.z / 10, v3.x / 10, v3.y / 10] ∧
    groBoxVectors (writeBox9 v1 v2 v3) =
      (⟨v1.x / 10, v1.y / 10, v1.z / 10⟩, ⟨v2.x / 10, v2.y / 10, v2.z / 10⟩,
        ⟨v3.x / 10, v3.y / 10, v3.z / 10⟩) :=
  ⟨rfl, rfl, rfl⟩

/-- C5 (counterexample): with two atoms at x-positions 0 and 10 angstroms
the code emits an x edge of 1.5 nm (total padding 5 angstroms per axis),
not the 2 nm a 5-angstrom margin on each side would give. -/
theorem c5_padding_counterexample :
    derivedBoxTriple c5AtomA c5AtomB [c5AtomA, c5AtomB] ≠
      claimDerivedBoxTriple c5AtomA c5AtomB [c5AtomA, c5AtomB] := by
  with_unfolding_all decide

/-- C5 (amended): with at least two atoms, the derived box line holds,
per axis, `(max - min + 5)/10` — the min/max extent over all atoms plus a
fixed 5-angstrom TOTAL padding (2.5 angstroms per side), the seeds from
atoms 0 and 1 being absorbed by the fold over the whole list. -/
theorem c5_derived_box_amended (a0 a1 : SAtom) (rest : List SAtom) :
    derivedBoxTriple a0 a1 (a0 :: a1 :: rest) =
      ((axisMax (·.xx) (a0 :: a1 :: rest) - axisMin (·.xx) (a0 :: a1 :: rest) + 5) / 10,
       (axisMax (·.xy) (a0 :: a1 :: rest) - axisMin (·.xy) (a0 :: a1 :: rest) + 5) / 10,
       (axisMax (·.xz) (a0 :: a1 :: rest) - axisMin (·.xz) (a0 :: a1 :: rest) + 5) / 10) := by
  have key : ∀ f : SAtom → ℚ, extentFold f a0 a1 (a0 :: a1 :: rest) =
      (axisMin f (a0 :: a1 :: rest), axisMax f (a0 :: a1 :: rest)) := by
    intro f
    unfold extentFold
    rw [foldl_minmax_split]
    simp only [axisMin, axisMax]
    rw [Prod.mk.injEq]
    refine ⟨?_, ?_⟩
    · rw [List.foldl_cons, min_self]
    · rw [List.foldl_cons, List.foldl_cons]
      conv_rhs => rw [List.foldl_cons]
      congr 1
      rw [max_comm (f a1) (f a0), max_assoc, max_self]
  unfold derivedBoxTriple
  rw [key (·.xx), key (·.xy), key (·.xz)]

/-- C6 (counterexample): with `precision = 3` a velocity field of `write`
is 8 characters wide (`varwidth = 5 + precision`), not the
`5 + precision + 1 = 9` the claim states. -/
theorem c6_vel_width_counterexample :
    (velFmtField 3 (12345 / 1000)).length = 8 ∧ (8 : ℕ) ≠ 5 + 3 + 1 := by
  with_unfolding_all decide

/-- C6 (amended): every coordinate field and every velocity field is
exactly `5 + precision` characters wide (the velocity format reuses
`varwidth`, with `precision + 1` decimals), fields that would overflow
being cut to that width; a field whose content fits holds the value
rounded to `precision` (respectively `precision + 1`) decimals, as its
re-parse shows. -/
theorem c6_field_widths_amended (p : ℕ) (v : ℚ) (hp : 1 ≤ p) :
    (crdFmtField p v).length = 5 + p ∧ (velFmtField p v).length = 5 + p ∧
    ((fmtContent p (v / 10)).length ≤ 5 + p →
      parseFloat (crdFmtField p v) = some ((fmtScaled p (v / 10) : ℤ) / (10 : ℚ) ^ p)) ∧
    ((fmtContent (p + 1) (v / 10)).length ≤ 5 + p →
      parseFloat (velFmtField p v) =
        some ((fmtScaled (p + 1) (v / 10) : ℤ) / (10 : ℚ) ^ (p + 1))) := by
  refine ⟨crdFmtField_length p v, velFmtField_length p v, ?_, ?_⟩
  · intro hfit
    unfold crdFmtField
    rw [fmtFixed_take_of_fit _ _ _ hfit]
    exact parseFloat_fmtFixed _ _ _ hp
  · intro hfit
    unfold velFmtField
    rw [fmtFixed_take_of_fit _ _ _ hfit]
    exact parseFloat_fmtFixed _ _ _ (by omega)

theorem c6_field_widths_amended_witness :
    ((1 : ℕ) ≤ 3 ∧ (fmtContent 3 ((12345 : ℚ) / 1000 / 10)).length ≤ 5 + 3 ∧
      (fmtContent 4 ((12345 : ℚ) / 1000 / 10)).length ≤ 5 + 3) ∧
    ((crdFmtField 3 ((12345 : ℚ) / 1000)).length = 5 + 3 ∧
      (velFmtField 3 ((12345 : ℚ) / 1000)).length = 5 + 3 ∧
      parseFloat (crdFmtField 3 ((12345 : ℚ) / 1000)) =
        some ((fmtScaled 3 ((12345 : ℚ) / 1000 / 10) : ℤ) / (10 : ℚ) ^ 3) ∧
      parseFloat (velFmtField 3 ((12345 : ℚ) / 1000)) =
        some ((fmtScaled 4 ((12345 : ℚ) / 1000 / 10) : ℤ) / (10 : ℚ) ^ 4)) := by
  refine ⟨⟨by norm_num, by with_unfolding_all decide, by with_unfolding_all decide⟩, ?_⟩
  obtain ⟨h1, h2, h3, h4⟩ := c6_field_widths_amended 3 ((12345 : ℚ) / 1000) (by norm_num)
  exact ⟨h1, h2, h3 (by with_unfolding_all decide), h4 (by with_unfolding_all decide)⟩

/-- C7 (counterexample): a writable destination and a structure with
finite coordinates on which `write` nevertheless raises — one atom, no
box, `nobox=False` reaches `struct.atoms[1]` (`IndexError`). -/
theorem c7_single_atom_crash :
    writeGro zeroLAToVecs c7OneAtom .fileLike 3 false = .error .indexErr := by
  with_unfolding_all decide

/-- C8 (code bug): `id_format` raises (uncaught `IndexError` from
`pdeci[1]`) on a third line with fewer than two decimal points, instead
of returning `False` as the claim (and the spec's contract) demands. -/
theorem c8_idformat_raises_on_dotless_line :
    idFormat c8File = .error () ∧ (dotIdxs (c8File.getD 2 [])).length < 2 := by
  with_unfolding_all decide

/-- C9 (counterexample): a file `parse` converts successfully but
`id_format` rejects: the first atom line's residue-name field is blank,
which `parse` never checks and the sniffer does. -/
theorem c9_parse_ok_probe_false :
    (parseGro zeroVecsToLA c9File).isOk = true ∧ idFormat c9File = .ok false := by
  with_unfolding_all decide

/-- C3 (counterexample): writing the two-atom structure whose first atom
sits at x = 0.004 angstrom with `precision=3` and re-parsing returns
x = 0 — an error of 0.004 angstrom, greater than the claimed 0.001
tolerance (the file stores 3 decimals in nanometers, so the quantum is
0.01 angstrom). -/
theorem c3_roundtrip_exceeds_claimed_tolerance :
    (((writeGroLines zeroLAToVecs c3Struct 3 false).toOption.bind
        (fun ls => (parseGro zeroVecsToLA ls).toOption)).map
      (fun s2 => s2.atoms.map (fun a => a.xx))) = some [0, 10] ∧
    ¬ (|(0 : ℚ) - 4 / 1000| ≤ 1 / 1000) := by
  with_unfolding_all decide

/-- C3 (amended): for a structure with no box, between 2 and 99999 atoms,
well-formed names and coordinates under 1000 angstroms in magnitude,
writing with `precision=3` and re-parsing succeeds and reproduces every
atom position to within 0.005 angstrom (half the 0.01-angstrom file
quantum, not 0.001), preserving atom names, residue names and ordering
exactly. -/
theorem c3_roundtrip_amended (g : VecsToLA) (geom : LAToVecs) (s : GroStructure)
    (hbox : s.box = none) (hlen : 2 ≤ s.atoms.length) (hcap : s.atoms.length < 100000)
    (hgood : ∀ a ∈ s.atoms, GoodAtom a) :
    ∃ lines s2, writeGroLines geom s 3 false = .ok lines ∧
      parseGro g lines = .ok s2 ∧ List.Forall₂ RTRel s.atoms s2.atoms := by
  rcases hsa : s.atoms with _ | ⟨a0, rest1⟩
  · rw [hsa] at hlen; simp at hlen
  · rcases rest1 with _ | ⟨a1, rest⟩
    · rw [hsa] at hlen; simp at hlen
    · simpa only [hsa] using c3_roundtrip_core g geom s hbox a0 a1 rest hsa hcap hgood

/-- The concrete two-atom structure used to instantiate the round-trip
theorem. -/
def c3WitStruct : GroStructure :=
  ⟨[⟨"OW".toList, 1, "SOL".toList, 1, 0, 1, 2, 3, none⟩,
    ⟨"HW1".toList, 2, "SOL".toList, 1, 0, 11, 20, 30, none⟩], none⟩

theorem c3_roundtrip_amended_witness :
    (c3WitStruct.box = none ∧ 2 ≤ c3WitStruct.atoms.length ∧
      c3WitStruct.atoms.length < 100000 ∧ ∀ a ∈ c3WitStruct.atoms, GoodAtom a) ∧
    (∃ lines s2, writeGroLines zeroLAToVecs c3WitStruct 3 false = .ok lines ∧
      parseGro zeroVecsToLA lines = .ok s2 ∧
      List.Forall₂ RTRel c3WitStruct.atoms s2.atoms) := by
  refine ⟨⟨rfl, by norm_num [c3WitStruct], by norm_num [c3WitStruct], ?_⟩, ?_⟩
  · intro a ha
    unfold GoodAtom GoodName
    fin_cases ha <;> refine ⟨⟨?_, ?_, ?_⟩, ⟨?_, ?_, ?_⟩, ?_, ?_, ?_, ?_⟩ <;>
      with_unfolding_all decide
  · exact c3_roundtrip_amended zeroVecsToLA zeroLAToVecs c3WitStruct rfl
      (by norm_num [c3WitStruct]) (by norm_num [c3WitStruct])
      (by intro a ha
          unfold GoodAtom GoodName
          fin_cases ha <;> refine ⟨⟨?_, ?_, ?_⟩, ⟨?_, ?_, ?_⟩, ?_, ?_, ?_, ?_⟩ <;>
            with_unfolding_all decide)

theorem writeGroLines_ne_typeErr (g : LAToVecs) (s : GroStructure) (p : ℕ)
    (nb : Bool) : writeGroLines g s p nb ≠ .error .typeErr := by
  obtain ⟨atoms, box⟩ := s
  cases box with
  | some b => simp [writeGroLines]
  | none =>
    cases nb with
    | true => simp [writeGroLines]
    | false =>
      rcases atoms with _ | ⟨a, _ | ⟨b, tl⟩⟩
      · simp [writeGroLines]
      · simp [writeGroLines]
      · simp [writeGroLines]

theorem writeGroLines_isOk_of (g : LAToVecs) (s : GroStructure) (p : ℕ)
    (nb : Bool) (h : s.box = none → nb = false → s.atoms.length ≠ 1) :
    (writeGroLines g s p nb).isOk = true := by
  obtain ⟨atoms, box⟩ := s
  cases box with
  | some b => simp [writeGroLines, Except.isOk, Except.toBool]
  | none =>
    cases nb with
    | true => simp [writeGroLines, Except.isOk, Except.toBool]
    | false =>
      rcases atoms with _ | ⟨a, _ | ⟨b, tl⟩⟩
      · simp [writeGroLines, Except.isOk, Except.toBool]
      · exact absurd rfl (h rfl rfl)
      · simp [writeGroLines, Except.isOk, Except.toBool]

/-- C7 (amended): `write` raises `TypeError` exactly when the destination
is neither a path string nor an object with a `write` method.  For a path
string it succeeds on every structure with coordinates except the no-box,
`nobox=False`, single-atom case, where `struct.atoms[1]` raises
`IndexError`.  For a file-like destination it never completes: the content
is written but `own_handle` (assigned only in the path-string branch,
line 184) is unbound at line 231, so whenever the body completes the call
raises `UnboundLocalError` — and in the single-atom case the earlier
`IndexError` propagates instead. -/
theorem c7_write_total_amended (geom : LAToVecs) (s : GroStructure) (dest : Dest)
    (p : ℕ) (nobox : Bool) :
    (writeGro geom s dest p nobox = .error .typeErr ↔ dest = .nonWritable) ∧
    (dest = .pathStr →
      (s.box = none → nobox = false → s.atoms.length ≠ 1) →
      (writeGro geom s dest p nobox).isOk = true) ∧
    (dest = .fileLike →
      (writeGro geom s dest p nobox).isOk = false ∧
      ((s.box = none → nobox = false → s.atoms.length ≠ 1) →
        writeGro geom s dest p nobox = .error .unboundLocalErr)) := by
  cases dest with
  | nonWritable =>
    exact ⟨⟨fun _ => rfl, fun _ => rfl⟩, fun hd => Dest.noConfusion hd,
      fun hd => Dest.noConfusion hd⟩
  | pathStr =>
    refine ⟨⟨fun hE => absurd hE (writeGroLines_ne_typeErr geom s p nobox),
      fun hC => Dest.noConfusion hC⟩, ?_, fun hd => Dest.noConfusion hd⟩
    exact fun _ h => writeGroLines_isOk_of geom s p nobox h
  | fileLike =>
    rcases hw : writeGroLines geom s p nobox with e | ls
    · have hge : writeGro geom s .fileLike p nobox = .error e := by
        unfold writeGro
        rw [hw]
      have hne := writeGroLines_ne_typeErr geom s p nobox
      rw [hw] at hne
      refine ⟨⟨fun hE => ?_, fun hC => Dest.noConfusion hC⟩,
        fun hd => Dest.noConfusion hd, fun _ => ⟨by rw [hge]; rfl, fun h => ?_⟩⟩
      · rw [hge] at hE
        exact absurd hE hne
      · have hok := writeGroLines_isOk_of geom s p nobox h
        rw [hw] at hok
        exact Bool.noConfusion hok
    · have hge : writeGro geom s .fileLike p nobox = .error .unboundLocalErr := by
        unfold writeGro
        rw [hw]
      refine ⟨⟨fun hE => ?_, fun hC => Dest.noConfusion hC⟩,
        fun hd => Dest.noConfusion hd, fun _ => ⟨by rw [hge]; rfl, fun _ => hge⟩⟩
      rw [hge] at hE
      injection hE with h2
      exact WriteErr.noConfusion h2

theorem c7_write_total_amended_witness :
    writeGro zeroLAToVecs c7OneAtom .nonWritable 3 true = .error .typeErr ∧
    (writeGro zeroLAToVecs c7OneAtom .pathStr 3 true).isOk = true ∧
    writeGro zeroLAToVecs c7OneAtom .fileLike 3 true = .error .unboundLocalErr :=
  ⟨(c7_write_total_amended zeroLAToVecs c7OneAtom .nonWritable 3 true).1.mpr rfl,
   (c7_write_total_amended zeroLAToVecs c7OneAtom .pathStr 3 true).2.1 rfl
     (fun _ hff => absurd hff (by decide)),
   ((c7_write_total_amended zeroLAToVecs c7OneAtom .fileLike 3 true).2.2 rfl).2
     (fun _ hff => absurd hff (by decide))⟩

theorem exceptStep_err {α β : Type} (e : GroErr) (k : α → Except GroErr β) :
    exceptStep (.error e) k = .error e := rfl

theorem addAtom_length (atoms : List SAtom) (a : SAtom) :
    (addAtom atoms a).length = atoms.length + 1 := by
  unfold addAtom
  split
  · simp
  · split <;> simp

theorem finishBox_atoms (g : VecsToLA) (atoms : List SAtom)
    (ol : Option (List Char)) (s : GroStructure)
    (h : finishBox g atoms ol = .ok s) : s.atoms = atoms := by
  cases ol with
  | none => exact absurd h (by simp [finishBox])
  | some line =>
    unfold finishBox at h
    split at h
    · exact Except.noConfusion h
    · split at h
      · injection h with h2
        rw [← h2]
      · unfold optStep at h
        split at h
        · exact Except.noConfusion h
        · beta_reduce at h
          split at h
          · injection h with h2
            rw [← h2]
          · split at h
            · split at h
              split at h
              injection h with h2
              rw [← h2]
            · injection h with h2
              rw [← h2]

theorem parseLoop_split (g : VecsToLA) (n : ℕ) :
    ∀ (pre : List (List Char)) (i : ℕ) (lay : Option Layout) (acc : List SAtom)
      (ll : Option (List Char)) (boxLine : List Char) (tail : List (List Char)),
      i + pre.length = n →
      (∃ e, parseLoop g (n : ℤ) i lay acc ll (pre ++ boxLine :: tail) = .error e ∧
            parseLoop g (n : ℤ) i lay acc ll (pre ++ [boxLine]) = .error e) ∨
      (∃ acc2, acc2.length = acc.length + pre.length ∧
            parseLoop g (n : ℤ) i lay acc ll (pre ++ boxLine :: tail) =
              finishBox g acc2 (some boxLine) ∧
            parseLoop g (n : ℤ) i lay acc ll (pre ++ [boxLine]) =
              finishBox g acc2 (some boxLine)) := by
  intro pre
  induction pre with
  | nil =>
    intro i lay acc ll boxLine tail hi
    right
    refine ⟨acc, by simp, ?_, ?_⟩
    · show parseLoop g (n : ℤ) i lay acc ll (boxLine :: tail) = _
      unfold parseLoop
      rw [if_pos (by exact_mod_cast (by simpa using hi))]
    · show parseLoop g (n : ℤ) i lay acc ll [boxLine] = _
      unfold parseLoop
      rw [if_pos (by exact_mod_cast (by simpa using hi))]
  | cons l pre ih =>
    intro i lay acc ll boxLine tail hi
    have hlt : i < n := by simp at hi; omega
    have hne : (i : ℤ) ≠ (n : ℤ) := by exact_mod_cast Nat.ne_of_lt hlt
    have hi' : (i + 1) + pre.length = n := by simp at hi; omega
    rcases hpa : parseAtomLine lay l with e | pl
    · left
      refine ⟨e, ?_, ?_⟩
      · rw [List.cons_append]
        show parseLoop g (n : ℤ) i lay acc ll (l :: (pre ++ boxLine :: tail)) = _
        unfold parseLoop
        rw [if_neg hne, hpa, exceptStep_err]
      · rw [List.cons_append]
        show parseLoop g (n : ℤ) i lay acc ll (l :: (pre ++ [boxLine])) = _
        unfold parseLoop
        rw [if_neg hne, hpa, exceptStep_err]
    · rcases ih (i + 1) (some pl.2)
          (addAtom acc ⟨pl.1.atomName, pl.1.atNum, pl.1.resName, pl.1.resNum, 0,
            pl.1.xx, pl.1.xy, pl.1.xz, pl.1.vel⟩) (some l) boxLine tail hi' with
        ⟨e, h1, h2⟩ | ⟨acc2, hlen, h1, h2⟩
      · left
        refine ⟨e, ?_, ?_⟩
        · rw [List.cons_append]
          show parseLoop g (n : ℤ) i lay acc ll (l :: (pre ++ boxLine :: tail)) = _
          unfold parseLoop
          rw [if_neg hne, hpa, exceptStep_ok]
          show parseLoop g (n : ℤ) (i + 1) (some pl.2)
            (addAtom acc ⟨pl.1.atomName, pl.1.atNum, pl.1.resName, pl.1.resNum, 0,
              pl.1.xx, pl.1.xy, pl.1.xz, pl.1.vel⟩) (some l) (pre ++ boxLine :: tail) = _
          exact h1
        · rw [List.cons_append]
          show parseLoop g (n : ℤ) i lay acc ll (l :: (pre ++ [boxLine])) = _
          unfold parseLoop
          rw [if_neg hne, hpa, exceptStep_ok]
          show parseLoop g (n : ℤ) (i + 1) (some pl.2)
            (addAtom acc ⟨pl.1.atomName, pl.1.atNum, pl.1.resName, pl.1.resNum, 0,
              pl.1.xx, pl.1.xy, pl.1.xz, pl.1.vel⟩) (some l) (pre ++ [boxLine]) = _
          exact h2
      · right
        refine ⟨acc2, ?_, ?_, ?_⟩
        · rw [hlen, addAtom_length]
          simp
          omega
        · rw [List.cons_append]
          show parseLoop g (n : ℤ) i lay acc ll (l :: (pre ++ boxLine :: tail)) = _
          unfold parseLoop
          rw [if_neg hne, hpa, exceptStep_ok]
          show parseLoop g (n : ℤ) (i + 1) (some pl.2)
            (addAtom acc ⟨pl.1.atomName, pl.1.atNum, pl.1.resName, pl.1.resNum, 0,
              pl.1.xx, pl.1.xy, pl.1.xz, pl.1.vel⟩) (some l) (pre ++ boxLine :: tail) = _
          exact h1
        · rw [List.cons_append]
          show parseLoop g (n : ℤ) i lay acc ll (l :: (pre ++ [boxLine])) = _
          unfold parseLoop
          rw [if_neg hne, hpa, exceptStep_ok]
          show parseLoop g (n : ℤ) (i + 1) (some pl.2)
            (addAtom acc ⟨pl.1.atomName, pl.1.atNum, pl.1.resName, pl.1.resNum, 0,
              pl.1.xx, pl.1.xy, pl.1.xz, pl.1.vel⟩) (some l) (pre ++ [boxLine]) = _
          exact h2

/-- C10 (confirmed): when the declared atom count `n` is smaller than the
number of lines after the two header lines, `parse` reads exactly the
first `n` of them as atom records (a successful parse holds exactly `n`
atoms), takes the `(n+1)`-th line as the only box-declaration candidate,
and never reads any line after it (appending arbitrary lines after the
`(n+1)`-th changes nothing, and the whole file parses exactly like its
truncation to that line). -/
theorem c10_extra_lines_never_read (g : VecsToLA) (t c : List Char)
    (body : List (List Char)) (n : ℕ)
    (hn : parseInt (trim c) = some (n : ℤ)) (hmore : n < body.length) :
    (∀ tail, parseGro g (t :: c :: (body.take (n + 1) ++ tail)) =
        parseGro g (t :: c :: body.take (n + 1))) ∧
    (∀ s, parseGro g (t :: c :: body) = .ok s → s.atoms.length = n) ∧
    parseGro g (t :: c :: body) = parseGro g (t :: c :: body.take (n + 1)) := by
  have hpg : ∀ (B : List (List Char)), parseGro g (t :: c :: B) =
      parseLoop g (n : ℤ) 0 none [] none B := by
    intro B
    unfold parseGro
    rw [show trim ((t :: c :: B).getD 1 []) = trim c from rfl, hn, optStep_some]
    rfl
  have hlenpre : (body.take n).length = n := by
    rw [List.length_take]; omega
  have htake : body.take (n + 1) = body.take n ++ [body[n]] := by
    rw [← List.take_concat_get body n hmore, List.concat_eq_append]
  have hA : ∀ tail, parseGro g (t :: c :: (body.take (n + 1) ++ tail)) =
      parseGro g (t :: c :: body.take (n + 1)) := by
    intro tail
    rw [hpg, hpg, htake]
    rw [show (body.take n ++ [body[n]]) ++ tail = body.take n ++ (body[n] :: tail) by
      rw [List.append_assoc]; rfl]
    rcases parseLoop_split g n (body.take n) 0 none [] none body[n] tail
        (by omega) with ⟨e, h1, h2⟩ | ⟨acc2, _, h1, h2⟩ <;> rw [h1, h2]
  have hsplit : body = body.take n ++ (body[n] :: body.drop (n + 1)) := by
    conv_lhs => rw [← List.take_append_drop n body]
    rw [List.drop_eq_getElem_cons hmore]
  refine ⟨hA, ?_, ?_⟩
  · intro s hs
    rw [hpg, hsplit] at hs
    rcases parseLoop_split g n (body.take n) 0 none [] none body[n] (body.drop (n + 1))
        (by omega) with ⟨e, h1, _⟩ | ⟨acc2, hlen, h1, _⟩
    · rw [h1] at hs
      exact absurd hs (by simp)
    · rw [h1] at hs
      rw [finishBox_atoms g acc2 (some body[n]) s hs, hlen, hlenpre]
      simp
  · conv_lhs => rw [hsplit]
    rw [hpg, hpg, htake]
    rcases parseLoop_split g n (body.take n) 0 none [] none body[n] (body.drop (n + 1))
        (by omega) with ⟨e, h1, h2⟩ | ⟨acc2, _, h1, h2⟩ <;> rw [h1, h2]

/-- Concrete three-body-line file for instantiating the truncation
theorem: one declared atom, an atom line, a box line, and a junk line. -/
def c10Title : List Char := "title".toList

def c10Count : List Char := "    1".toList

def c10Body : List (List Char) :=
  ["    1SOL     OW    1   0.126   1.624   1.679".toList,
   "   1.00000   1.00000   1.00000".toList,
   "garbage".toList]

theorem c10_extra_lines_never_read_witness :
    parseGro zeroVecsToLA (c10Title :: c10Count :: (c10Body.take 2 ++ [['j']])) =
      parseGro zeroVecsToLA (c10Title :: c10Count :: c10Body.take 2) ∧
    parseGro zeroVecsToLA (c10Title :: c10Count :: c10Body) =
      parseGro zeroVecsToLA (c10Title :: c10Count :: c10Body.take 2) := by
  have H := c10_extra_lines_never_read zeroVecsToLA c10Title c10Count c10Body 1
    (by with_unfolding_all decide) (by with_unfolding_all decide)
  exact ⟨H.1 [['j']], H.2.2⟩

theorem inferLayout_components (l : List Char) (lay : Layout)
    (h : inferLayout l = .ok lay) :
    dotIdxFrom l 20 = some lay.pdeci ∧ dotIdxFrom l (lay.pdeci + 1) = some lay.ndeci ∧
    lay.digits = lay.ndeci - lay.pdeci := by
  obtain ⟨dg, pd, nd⟩ := lay
  unfold inferLayout at h
  rcases h1 : dotIdxFrom l 20 with _ | p
  · rw [h1, optStep_none] at h
    exact Except.noConfusion h
  rw [h1, optStep_some] at h
  try simp only [] at h
  rcases h2 : dotIdxFrom l (p + 1) with _ | q
  · rw [h2, optStep_none] at h
    exact Except.noConfusion h
  rw [h2, optStep_some] at h
  try simp only [] at h
  injection h with h3
  injection h3 with ha hb hc
  subst ha
  subst hb
  subst hc
  exact ⟨rfl, h2, rfl⟩

theorem parseAtomLine_components (l : List Char) (r : ParsedAtom × Layout)
    (h : parseAtomLine none l = .ok r) :
    ∃ lay0 : Layout, inferLayout l = .ok lay0 ∧
      (parseInt (pySlice l 0 5)).isSome = true ∧
      (parseInt (pySlice l 15 20)).isSome = true ∧
      (parseFloat (pySlice l 20 (20 + lay0.digits))).isSome = true ∧
      (parseFloat (pySlice l (20 + lay0.digits) (20 + 2 * lay0.digits))).isSome = true ∧
      (parseFloat (pySlice l (20 + 2 * lay0.digits) (20 + 3 * lay0.digits))).isSome = true := by
  unfold parseAtomLine at h
  rcases h1 : parseInt (pySlice l 0 5) with _ | rnum
  · rw [h1, optStep_none] at h
    exact Except.noConfusion h
  rw [h1, optStep_some] at h
  try simp only [] at h
  rcases h2 : parseInt (pySlice l 15 20) with _ | anum
  · rw [h2, optStep_none] at h
    exact Except.noConfusion h
  rw [h2, optStep_some] at h
  try simp only [] at h
  rcases h3 : layoutOf none l with e | lay0
  · rw [h3, exceptStep_err] at h
    exact Except.noConfusion h
  rw [h3, exceptStep_ok] at h
  try simp only [] at h
  rcases h4 : parseFloat (pySlice l 20 (20 + lay0.digits)) with _ | x
  · rw [h4, optStep_none] at h
    exact Except.noConfusion h
  rw [h4, optStep_some] at h
  try simp only [] at h
  rcases h5 : parseFloat (pySlice l (20 + lay0.digits) (20 + 2 * lay0.digits)) with _ | y
  · rw [h5, optStep_none] at h
    exact Except.noConfusion h
  rw [h5, optStep_some] at h
  try simp only [] at h
  rcases h6 : parseFloat (pySlice l (20 + 2 * lay0.digits) (20 + 3 * lay0.digits)) with _ | z
  · rw [h6, optStep_none] at h
    exact Except.noConfusion h
  refine ⟨lay0, h3, rfl, rfl, ?_, ?_, ?_⟩
  · rw [h4]
    rfl
  · rw [h5]
    rfl
  · rw [h6]
    rfl

theorem idDotsCheck_std (l : List Char) (p1 : ℕ) (ds : List ℕ) (hp1 : 24 < p1)
    (h1 : (parseFloat (pySlice l 20 (20 + (p1 - 24)))).isSome = true)
    (h2 : (parseFloat (pySlice l (20 + (p1 - 24)) (20 + (p1 - 24) * 2))).isSome = true)
    (h3 : (parseFloat (pySlice l (20 + (p1 - 24) * 2) (20 + (p1 - 24) * 3))).isSome = true)
    (h4 : trim (pySlice l (20 + (p1 - 24) * 3) (20 + (p1 - 24) * 4)) = []) :
    idDotsCheck l (24 :: p1 :: ds) = .ok true := by
  unfold idDotsCheck
  simp only []
  norm_num
  have e0 : Int.toNat 20 = 20 := rfl
  have e1 : ((20 : ℤ) + ((p1 : ℤ) - 24)).toNat = 20 + (p1 - 24) := by omega
  have e2 : ((20 : ℤ) + ((p1 : ℤ) - 24) * 2).toNat = 20 + (p1 - 24) * 2 := by omega
  have e3 : ((20 : ℤ) + ((p1 : ℤ) - 24) * 3).toNat = 20 + (p1 - 24) * 3 := by omega
  have e4 : ((20 : ℤ) + ((p1 : ℤ) - 24) * 4).toNat = 20 + (p1 - 24) * 4 := by omega
  rw [e0, e1, e2, e3, e4]
  rw [if_pos ⟨h1, h2, h3⟩, if_pos h4]

/-- C9 (amended): `parse` success alone does not make the sniffer say yes
(see the counterexample); it does once the third line also satisfies what
`id_format` additionally checks: non-blank residue-name and atom-name
fields, a first decimal point exactly at column 24 with no dot anywhere
before it, the second dot after column 24, no trailing velocity columns,
and a nonzero declared atom count so the third line really is an atom
record. -/
theorem c9_probe_true_amended (g : VecsToLA) (t c l : List Char)
    (rest : List (List Char)) (s : GroStructure) (natom : ℤ) (p1 : ℕ) (ds : List ℕ)
    (hnat : parseInt (trim c) = some natom)
    (hpos : natom ≠ 0)
    (hok : parseGro g (t :: c :: l :: rest) = .ok s)
    (hres : trim (pySlice l 5 10) ≠ [])
    (hatm : trim (pySlice l 10 15) ≠ [])
    (hdots : dotIdxs l = 24 :: p1 :: ds)
    (hp1 : 24 < p1)
    (hshort : l.length ≤ 20 + 3 * (p1 - 24)) :
    idFormat (t :: c :: l :: rest) = .ok true := by
  unfold parseGro at hok
  rw [show trim ((t :: c :: l :: rest).getD 1 []) = trim c from rfl, hnat, optStep_some] at hok
  try simp only [] at hok
  have hok2 : parseLoop g natom 0 none [] none (l :: rest) = .ok s := hok
  have h0 : ¬((0 : ℕ) : ℤ) = natom := by push_cast; omega
  rcases hq : parseAtomLine none l with e | pr
  · exfalso
    have hbad : parseLoop g natom 0 none [] none (l :: rest) = .error e := by
      unfold parseLoop
      rw [if_neg h0, hq, exceptStep_err]
    rw [hbad] at hok2
    exact Except.noConfusion hok2
  obtain ⟨lay0, hinf, hs05, hs1520, hf1, hf2, hf3⟩ := parseAtomLine_components l pr hq
  obtain ⟨hd20, hd25, hdig⟩ := inferLayout_components l lay0 hinf
  have h25le : (25 : ℕ) ≤ p1 := by omega
  have hfind20 : dotIdxFrom l 20 = some 24 := by
    unfold dotIdxFrom
    rw [hdots]
    exact List.find?_cons_of_pos _ (by decide)
  have h24 : lay0.pdeci = 24 := Option.some.inj (hd20.symm.trans hfind20)
  have hfind25 : dotIdxFrom l 25 = some p1 := by
    unfold dotIdxFrom
    rw [hdots, List.find?_cons_of_neg _ (by decide)]
    exact List.find?_cons_of_pos _ (decide_eq_true h25le)
  rw [h24] at hd25
  norm_num at hd25
  have hnd : lay0.ndeci = p1 := Option.some.inj (hd25.symm.trans hfind25)
  have hdg : lay0.digits = p1 - 24 := by rw [hdig, hnd, h24]
  rw [hdg] at hf1 hf2 hf3
  rw [show 2 * (p1 - 24) = (p1 - 24) * 2 from Nat.mul_comm 2 _] at hf2 hf3
  rw [show 3 * (p1 - 24) = (p1 - 24) * 3 from Nat.mul_comm 3 _] at hf3
  have h4' : trim (pySlice l (20 + (p1 - 24) * 3) (20 + (p1 - 24) * 4)) = [] := by
    rw [pySlice_oob l _ _ (by omega), trim_nil]
  have hICL : idCheckLine l = .ok true := by
    obtain ⟨v1, hv1⟩ := Option.isSome_iff_exists.mp hs05
    obtain ⟨v4, hv4⟩ := Option.isSome_iff_exists.mp hs1520
    unfold idCheckLine
    rw [hv1, hv4, hdots]
    rw [if_neg (by simp), if_neg hres, if_neg hatm, if_neg (by simp)]
    exact idDotsCheck_std l p1 ds hp1 hf1 hf2 hf3 h4'
  unfold idFormat
  rw [show trim ((t :: c :: l :: rest).getD 1 []) = trim c from rfl, hnat]
  rw [if_neg (by simp)]
  exact hICL

/-- Concrete standard-layout file for instantiating the amended probe
theorem. -/
def c9WitTitle : List Char := "water".toList

def c9WitCount : List Char := "    1".toList

def c9WitLine : List Char :=
  "    1SOL     OW    1   0.126   1.624   1.679".toList

def c9WitRest : List (List Char) := ["   1.00000   1.00000   1.00000".toList]

/-- The structure `parse` returns on that file. -/
def c9WitS : GroStructure :=
  ⟨[⟨"OW".toList, 1, "SOL".toList, 1, 0, 126/100, 1624/100, 1679/100, none⟩],
   some [10, 10, 10, 90, 90, 90]⟩

theorem c9_probe_true_amended_witness :
    parseGro zeroVecsToLA (c9WitTitle :: c9WitCount :: c9WitLine :: c9WitRest) =
      .ok c9WitS ∧
    idFormat (c9WitTitle :: c9WitCount :: c9WitLine :: c9WitRest) = .ok true := by
  have hok : parseGro zeroVecsToLA (c9WitTitle :: c9WitCount :: c9WitLine :: c9WitRest) =
      .ok c9WitS := by with_unfolding_all decide
  exact ⟨hok, c9_probe_true_amended zeroVecsToLA c9WitTitle c9WitCount c9WitLine
    c9WitRest c9WitS 1 32 [40] (by with_unfolding_all decide) (by decide) hok
    (by with_unfolding_all decide) (by with_unfolding_all decide)
    (by with_unfolding_all decide) (by decide) (by with_unfolding_all decide)⟩
